import Mathlib

/-!
Verification development for the SysML visualizer's textual front end:
the lexer (`src/parser/lexer.ts`), the recursive-descent parser
(`src/parser/parser.ts`) and the model/query layer (`ModelContext`).

The TypeScript code is shallowly embedded:
* `tokenize` is a total Lean function (the lexer's loops all advance the
  position by at least one character, so the embedding is structurally
  recursive on the remaining input).
* The parser's mutually-recursive productions are embedded as fueled
  functions returning `Except PErr (α × PState)`; running out of fuel is
  the distinguished error `PErr.noFuel`, so a `.ok` result corresponds
  exactly to a terminating TypeScript run, and a result of `.noFuel` for
  every fuel witnesses non-termination of the original loop.
* Element ids: the source generates string ids `elem_${n}` from a
  per-parse counter; the embedding keeps the numeric counter value `n`
  as the id (the `elem_` decoration is an injective renaming that no
  claim observes).
-/

set_option maxHeartbeats 1000000
set_option maxRecDepth 100000

namespace SysMLV

/-- Token kinds, from `lexer.ts` (`TokenType`). -/
inductive TokenType where
  | KEYWORD
  | IDENTIFIER
  | STRING
  | NUMBER
  | LBRACE
  | RBRACE
  | LBRACKET
  | RBRACKET
  | LPAREN
  | RPAREN
  | COLON
  | SEMICOLON
  | EQUALS
  | COMMA
  | DOT
  | COMMENT
  | EOF
deriving DecidableEq, Repr

/-- A lexed token, from `lexer.ts` (`Token`). -/
structure Token where
  type : TokenType
  value : String
  line : Nat
  column : Nat
deriving DecidableEq, Repr

/-- The closed keyword set of `lexer.ts` (`KEYWORDS`). -/
def KEYWORDS : List String :=
  ["package", "part", "def", "port", "item", "requirement", "state",
   "transition", "attribute", "interface", "connect", "bind", "entry",
   "then", "first", "accept", "action", "inout", "in", "out", "id", "text"]

/-- Whitespace characters recognized by the lexer's first rule (`/\s/`
on the ASCII-oriented inputs the grammar targets). -/
def isSpaceChar (c : Char) : Bool :=
  c = ' ' || c = '\t' || c = '\n' || c = '\r'

/-- Characters a numeric literal consumes (`/[\d.]/`, `lexer.ts` line 141). -/
def isNumChar (c : Char) : Bool :=
  c.isDigit || c = '.'

/-- Characters starting an identifier (`/[a-zA-Z_]/`). -/
def isIdentStart (c : Char) : Bool :=
  c.isAlpha || c = '_'

/-- Characters continuing an identifier (`/[a-zA-Z0-9_]/`). -/
def isIdentChar (c : Char) : Bool :=
  c.isAlpha || c.isDigit || c = '_'

/-- The single-character token table of `lexer.ts` (`singleTokens`). -/
def singleTok (c : Char) : Option TokenType :=
  if c = '\x7b' then some .LBRACE
  else if c = '\x7d' then some .RBRACE
  else if c = '[' then some .LBRACKET
  else if c = ']' then some .RBRACKET
  else if c = '(' then some .LPAREN
  else if c = ')' then some .RPAREN
  else if c = ':' then some .COLON
  else if c = ';' then some .SEMICOLON
  else if c = '=' then some .EQUALS
  else if c = ',' then some .COMMA
  else if c = '.' then some .DOT
  else none

/-- Scan of a block comment's interior (`lexer.ts` lines 94-100): count of
characters consumed by the `while` loop before the closing `*/` (or before
fewer than two characters remain), together with the updated line/column.
Inside the loop only newlines touch the position counters. -/
def blockAux : List Char → Nat → Nat → Nat × Nat × Nat
  | '*' :: '/' :: _, line, col => (0, line, col)
  | a :: b :: rest, line, col =>
    let r := blockAux (b :: rest) (if a = '\n' then line + 1 else line)
      (if a = '\n' then 1 else col)
    (r.1 + 1, r.2)
  | _, line, col => (0, line, col)

/-- Line/column update for one character inside a string literal
(`lexer.ts` lines 117-125). -/
def strStep : Nat × Nat → Char → Nat × Nat
  | (l, c), ch => if ch = '\n' then (l + 1, 1) else (l, c + 1)

/-- The lexer's main loop (`lexer.ts` lines 60-202): returns the tokens
pushed by the loop together with the final line/column. The rules are
tried in the source's priority order.  The first argument is structural
fuel bounding the number of loop iterations; every iteration consumes at
least one character, so `length + 1` fuel can never run out
(`tokenizeFuel_congr` below proves the result is fuel-independent for
any sufficient fuel). -/
def tokenizeFuel : Nat → List Char → Nat → Nat → List Token × Nat × Nat
  | 0, _, line, col => ([], line, col)
  | _ + 1, [], line, col => ([], line, col)
  | fuel + 1, c :: cs, line, col =>
    if isSpaceChar c then
      if c = '\n' then tokenizeFuel fuel cs (line + 1) 1
      else tokenizeFuel fuel cs line (col + 1)
    else if c = '/' && cs.head? = some '/' then
      -- single-line comment
      let content := cs.takeWhile (· ≠ '\n')
      let r := tokenizeFuel fuel (cs.drop content.length) line col
      (⟨.COMMENT, String.mk (c :: content), line, col⟩ :: r.1, r.2)
    else if c = '/' && cs.head? = some '*' then
      -- multi-line comment
      let b := blockAux (cs.drop 1) line col
      let r := tokenizeFuel fuel (cs.drop (b.1 + 3)) b.2.1 b.2.2
      (⟨.COMMENT, String.mk ((c :: cs).take (b.1 + 4)), b.2.1, b.2.2⟩ :: r.1, r.2)
    else if c = '"' then
      -- string literal (no escape handling)
      let content := cs.takeWhile (· ≠ '"')
      let lc := content.foldl strStep (line, col + 1)
      let r := tokenizeFuel fuel (cs.drop (content.length + 1)) lc.1 (lc.2 + 1)
      (⟨.STRING, String.mk content, lc.1, col⟩ :: r.1, r.2)
    else if c.isDigit || (c = '.' && (cs.head?.map Char.isDigit).getD false) then
      -- numeric literal
      let tail := cs.takeWhile isNumChar
      let r := tokenizeFuel fuel (cs.drop tail.length) line (col + tail.length + 1)
      (⟨.NUMBER, String.mk (c :: tail), line, col⟩ :: r.1, r.2)
    else if isIdentStart c then
      -- identifier or keyword
      let tail := cs.takeWhile isIdentChar
      let value := String.mk (c :: tail)
      let ty : TokenType := if value ∈ KEYWORDS then .KEYWORD else .IDENTIFIER
      let r := tokenizeFuel fuel (cs.drop tail.length) line (col + tail.length + 1)
      (⟨ty, value, line, col⟩ :: r.1, r.2)
    else
      match singleTok c with
      | some ty =>
        let r := tokenizeFuel fuel cs line (col + 1)
        (⟨ty, String.mk [c], line, col⟩ :: r.1, r.2)
      | none =>
        -- unknown character: silently skipped
        tokenizeFuel fuel cs line (col + 1)

/-- The scan loop run with always-sufficient fuel. -/
def tokenizeAux (cs : List Char) (line col : Nat) : List Token × Nat × Nat :=
  tokenizeFuel (cs.length + 1) cs line col

/-- `tokenize` (`lexer.ts` line 54): runs the loop from line 1, column 1
and appends the final end-of-input token (line 204). -/
def tokenize (source : String) : List Token :=
  let r := tokenizeAux source.toList 1 1
  r.1 ++ [⟨.EOF, "", r.2.1, r.2.2⟩]

/-- Element kinds, from `types.ts` (`ElementType`), restricted to the
variants the parser actually constructs. -/
inductive EType where
  | package
  | part_def
  | part
  | port_def
  | port
  | item_def
  | requirement_def
  | state_def
  | state
  | transition
  | connection
  | bind
deriving DecidableEq, Repr

/-- A model element, from `types.ts` (`SysMLElement` and its variants).
The variant-specific fields are carried with neutral defaults; the parser
only ever fills the fields of the variant it constructs.  The `metadata`
map is always created empty (`metadata: {}` at every construction site in
`parser.ts`) and never read, so it is omitted. -/
structure Element where
  type : EType
  name : String
  id : Nat
  parent : Option Nat
  children : List Nat
  ports : List Nat := []
  parts : List Nat := []
  states : List Nat := []
  transitions : List Nat := []
  items : List String := []
  defRef : Option String := none
  multiplicity : Option String := none
  reqId : Option String := none
  text : Option String := none
  entryAction : Option String := none
  source : String := ""
  target : String := ""
  trigger : Option String := none
deriving DecidableEq, Repr

/-- Lookup in an insertion-ordered association list, the embedding of
`Map.get` on `model.elements`. -/
def mapGet : List (Nat × Element) → Nat → Option Element
  | [], _ => none
  | (k', v') :: rest, k => if k' = k then some v' else mapGet rest k

/-- `Map.set` on `model.elements`: replaces in place if the key is
present, appends otherwise (JavaScript `Map` insertion-order semantics). -/
def mapSet : List (Nat × Element) → Nat → Element → List (Nat × Element)
  | [], k, v => [(k, v)]
  | (k', v') :: rest, k, v =>
    if k' = k then (k, v) :: rest else (k', v') :: mapSet rest k v

/-- The parse result, from `types.ts` (`SysMLModel`). -/
structure Model where
  elements : List (Nat × Element)
  rootPackage : Option Nat
deriving DecidableEq, Repr

/-- Parse failure: `expected` embeds the `Error` thrown by `expect`
(`parser.ts` lines 69-77), carrying the expected kind/value, the actual
kind/value and the line of the actual token; `noFuel` marks fuel
exhaustion of the embedding (the TypeScript run that has not yet
terminated). -/
inductive PErr where
  | expected (expType : TokenType) (expVal : Option String)
      (gotType : TokenType) (gotVal : String) (line : Nat)
  | noFuel
deriving DecidableEq, Repr

/-- The parser's internal state (`SysMLParser`'s private fields: `tokens`,
`pos`, `model`, `idCounter`). -/
structure PState where
  tokens : List Token
  pos : Nat
  elements : List (Nat × Element)
  rootPackage : Option Nat
  idCounter : Nat
deriving DecidableEq, Repr

abbrev PRes (α : Type) := Except PErr (α × PState)

/-- `current()` (`parser.ts` lines 44-46): the token at the cursor, or a
synthesized EOF token past the end. -/
def currentTok (s : PState) : Token :=
  (s.tokens.get? s.pos).getD ⟨.EOF, "", 0, 0⟩

/-- `advance()` (lines 48-52). -/
def advanceT (s : PState) : Token × PState :=
  (currentTok s, { s with pos := s.pos + 1 })

/-- `check(type, value?)` (lines 54-59). -/
def checkT (s : PState) (ty : TokenType) (v : Option String) : Bool :=
  let t := currentTok s
  t.type == ty && (match v with | none => true | some x => t.value == x)

/-- `lookAhead(type, value?)` (lines 138-144): inspects the token after
the cursor, false when none exists. -/
def lookAheadT (s : PState) (ty : TokenType) (v : Option String) : Bool :=
  match s.tokens.get? (s.pos + 1) with
  | none => false
  | some t => t.type == ty && (match v with | none => true | some x => t.value == x)

/-- `match(type, value?)` (lines 61-67). -/
def matchT (s : PState) (ty : TokenType) (v : Option String) : Bool × PState :=
  if checkT s ty v then (true, { s with pos := s.pos + 1 }) else (false, s)

/-- `expect(type, value?)` (lines 69-77). -/
def expectT (s : PState) (ty : TokenType) (v : Option String) : PRes Token :=
  if checkT s ty v then .ok (advanceT s)
  else
    let t := currentTok s
    .error (.expected ty v t.type t.value t.line)

/-- `generateId()` (lines 40-42): bumps the counter and returns the new
id (the source renders it as the string `elem_` + counter). -/
def generateId (s : PState) : Nat × PState :=
  (s.idCounter + 1, { s with idCounter := s.idCounter + 1 })

/-- `this.model.elements.set(id, e)`. -/
def setElem (s : PState) (k : Nat) (e : Element) : PState :=
  { s with elements := mapSet s.elements k e }

/-- `parent.children.push(elemId)` as performed by `parsePackageBody`
through the live reference into the element map (the parent is always
present at the call sites; the source asserts this with `!`). -/
def addChild (s : PState) (pid elemId : Nat) : PState :=
  match mapGet s.elements pid with
  | some pe => setElem s pid { pe with children := pe.children ++ [elemId] }
  | none => s

/-- The `while (this.match('DOT'))` loop of `parseQualifiedName`
(`parser.ts` lines 548-550). -/
def qualLoop : Nat → String → PState → PRes String
  | 0, _, _ => .error .noFuel
  | fuel + 1, name, s =>
    match matchT s .DOT none with
    | (true, s1) =>
      match expectT s1 .IDENTIFIER none with
      | .error e => .error e
      | .ok (t, s2) => qualLoop fuel (name ++ "." ++ t.value) s2
    | (false, _) => .ok (name, s)

/-- `parseQualifiedName()` (lines 546-552). -/
def parseQualifiedName (fuel : Nat) (s : PState) : PRes String :=
  match expectT s .IDENTIFIER none with
  | .error e => .error e
  | .ok (t, s1) => qualLoop fuel t.value s1

/-- `parsePort(parent)` (lines 270-293): a port usage. -/
def parsePort (parent : Nat) (s : PState) : PRes Nat :=
  match expectT s .KEYWORD (some "port") with
  | .error e => .error e
  | .ok (_, s1) =>
    match expectT s1 .IDENTIFIER none with
    | .error e => .error e
    | .ok (nameTok, s2) =>
      let (id, s3) := generateId s2
      match matchT s3 .COLON none with
      | (true, s4) =>
        match expectT s4 .IDENTIFIER none with
        | .error e => .error e
        | .ok (defTok, s5) =>
          let port : Element :=
            { type := .port, name := nameTok.value, id, parent := some parent,
              children := [], defRef := some defTok.value }
          let s6 := (matchT s5 .SEMICOLON none).2
          .ok (id, setElem s6 id port)
      | (false, s4) =>
        let port : Element :=
          { type := .port, name := nameTok.value, id, parent := some parent,
            children := [], defRef := none }
        let s5 := (matchT s4 .SEMICOLON none).2
        .ok (id, setElem s5 id port)

/-- `parsePart(parent)` (lines 295-325): a part usage with optional
`: Def` and `[N]` multiplicity. -/
def parsePart (parent : Nat) (s : PState) : PRes Nat :=
  match expectT s .KEYWORD (some "part") with
  | .error e => .error e
  | .ok (_, s1) =>
    match expectT s1 .IDENTIFIER none with
    | .error e => .error e
    | .ok (nameTok, s2) =>
      let (id, s3) := generateId s2
      let mk (defRef : Option String) (multiplicity : Option String)
          (s' : PState) : PRes Nat :=
        let part : Element :=
          { type := .part, name := nameTok.value, id, parent := some parent,
            children := [], defRef, multiplicity }
        let s'' := (matchT s' .SEMICOLON none).2
        .ok (id, setElem s'' id part)
      match matchT s3 .COLON none with
      | (true, s4) =>
        match expectT s4 .IDENTIFIER none with
        | .error e => .error e
        | .ok (defTok, s5) =>
          match matchT s5 .LBRACKET none with
          | (true, s6) =>
            match expectT s6 .NUMBER none with
            | .error e => .error e
            | .ok (numTok, s7) =>
              match expectT s7 .RBRACKET none with
              | .error e => .error e
              | .ok (_, s8) => mk (some defTok.value) (some numTok.value) s8
          | (false, s6) => mk (some defTok.value) none s6
      | (false, s4) => mk none none s4

/-- The body-skipping loop of `parseItemDef` (lines 163-165): advances
until `}` or EOF. -/
def itemSkip : Nat → PState → PRes Unit
  | 0, _ => .error .noFuel
  | fuel + 1, s =>
    if !(checkT s .RBRACE none) && !(checkT s .EOF none) then
      itemSkip fuel (advanceT s).2
    else .ok ((), s)

/-- `parseItemDef(parent)` (lines 146-173). -/
def parseItemDef (parent : Nat) (fuel : Nat) (s : PState) : PRes Nat :=
  match expectT s .KEYWORD (some "item") with
  | .error e => .error e
  | .ok (_, s1) =>
    match expectT s1 .KEYWORD (some "def") with
    | .error e => .error e
    | .ok (_, s2) =>
      match expectT s2 .IDENTIFIER none with
      | .error e => .error e
      | .ok (nameTok, s3) =>
        let (id, s4) := generateId s3
        let item : Element :=
          { type := .item_def, name := nameTok.value, id,
            parent := some parent, children := [] }
        match matchT s4 .LBRACE none with
        | (true, s5) =>
          match itemSkip fuel s5 with
          | .error e => .error e
          | .ok (_, s6) =>
            match expectT s6 .RBRACE none with
            | .error e => .error e
            | .ok (_, s7) => .ok (id, setElem s7 id item)
        | (false, s5) =>
          let s6 := (matchT s5 .SEMICOLON none).2
          .ok (id, setElem s6 id item)

/-- The body loop of `parsePortDef` (lines 192-207), accumulating the
`items` strings. -/
def portDefLoop : Nat → List String → PState → PRes (List String)
  | 0, _, _ => .error .noFuel
  | fuel + 1, items, s =>
    if checkT s .RBRACE none || checkT s .EOF none then .ok (items, s)
    else if checkT s .KEYWORD (some "inout") || checkT s .KEYWORD (some "in")
        || checkT s .KEYWORD (some "out") then
      let (dirTok, s1) := advanceT s
      match matchT s1 .KEYWORD (some "item") with
      | (true, s2) =>
        match expectT s2 .IDENTIFIER none with
        | .error e => .error e
        | .ok (nameTok, s3) =>
          match matchT s3 .COLON none with
          | (true, s4) =>
            match expectT s4 .IDENTIFIER none with
            | .error e => .error e
            | .ok (tyTok, s5) =>
              let items' := items ++
                [dirTok.value ++ " " ++ nameTok.value ++ ": " ++ tyTok.value]
              let s6 := (matchT s5 .SEMICOLON none).2
              portDefLoop fuel items' s6
          | (false, s4) =>
            let s5 := (matchT s4 .SEMICOLON none).2
            portDefLoop fuel items s5
      | (false, s2) => portDefLoop fuel items s2
    else portDefLoop fuel items (advanceT s).2

/-- `parsePortDef(parent)` (lines 175-215). -/
def parsePortDef (parent : Nat) (fuel : Nat) (s : PState) : PRes Nat :=
  match expectT s .KEYWORD (some "port") with
  | .error e => .error e
  | .ok (_, s1) =>
    match expectT s1 .KEYWORD (some "def") with
    | .error e => .error e
    | .ok (_, s2) =>
      match expectT s2 .IDENTIFIER none with
      | .error e => .error e
      | .ok (nameTok, s3) =>
        let (id, s4) := generateId s3
        let mk (items : List String) : Element :=
          { type := .port_def, name := nameTok.value, id,
            parent := some parent, children := [], items }
        match matchT s4 .LBRACE none with
        | (true, s5) =>
          match portDefLoop fuel [] s5 with
          | .error e => .error e
          | .ok (items, s6) =>
            match expectT s6 .RBRACE none with
            | .error e => .error e
            | .ok (_, s7) => .ok (id, setElem s7 id (mk items))
        | (false, s5) =>
          let s6 := (matchT s5 .SEMICOLON none).2
          .ok (id, setElem s6 id (mk []))

/-- The body loop of `parseRequirementDef` (lines 343-357), accumulating
the optional `id = "…"` and `text = "…"` fields. -/
def reqLoop : Nat → Option String → Option String → PState →
    PRes (Option String × Option String)
  | 0, _, _, _ => .error .noFuel
  | fuel + 1, reqId, text, s =>
    if checkT s .RBRACE none || checkT s .EOF none then .ok ((reqId, text), s)
    else if checkT s .KEYWORD (some "id") then
      let s1 := (advanceT s).2
      match expectT s1 .EQUALS none with
      | .error e => .error e
      | .ok (_, s2) =>
        match expectT s2 .STRING none with
        | .error e => .error e
        | .ok (vTok, s3) =>
          let s4 := (matchT s3 .SEMICOLON none).2
          reqLoop fuel (some vTok.value) text s4
    else if checkT s .KEYWORD (some "text") then
      let s1 := (advanceT s).2
      match expectT s1 .EQUALS none with
      | .error e => .error e
      | .ok (_, s2) =>
        match expectT s2 .STRING none with
        | .error e => .error e
        | .ok (vTok, s3) =>
          let s4 := (matchT s3 .SEMICOLON none).2
          reqLoop fuel reqId (some vTok.value) s4
    else reqLoop fuel reqId text (advanceT s).2

/-- `parseRequirementDef(parent)` (lines 327-363).  Note: with no brace
there is no `;` consumption in the source. -/
def parseRequirementDef (parent : Nat) (fuel : Nat) (s : PState) : PRes Nat :=
  match expectT s .KEYWORD (some "requirement") with
  | .error e => .error e
  | .ok (_, s1) =>
    match expectT s1 .KEYWORD (some "def") with
    | .error e => .error e
    | .ok (_, s2) =>
      match expectT s2 .IDENTIFIER none with
      | .error e => .error e
      | .ok (nameTok, s3) =>
        let (id, s4) := generateId s3
        let mk (reqId text : Option String) : Element :=
          { type := .requirement_def, name := nameTok.value, id,
            parent := some parent, children := [], reqId, text }
        match matchT s4 .LBRACE none with
        | (true, s5) =>
          match reqLoop fuel none none s5 with
          | .error e => .error e
          | .ok (rt, s6) =>
            match expectT s6 .RBRACE none with
            | .error e => .error e
            | .ok (_, s7) => .ok (id, setElem s7 id (mk rt.1 rt.2))
        | (false, s5) => .ok (id, setElem s5 id (mk none none))

/-- The entry-action body skip of `parseState` (line 436):
`while (!this.check('RBRACE')) this.advance();` — note the missing EOF
check, faithfully reproduced. -/
def skipActionBody : Nat → PState → PRes Unit
  | 0, _ => .error .noFuel
  | fuel + 1, s =>
    if checkT s .RBRACE none then .ok ((), s)
    else skipActionBody fuel (advanceT s).2

/-- The body loop of `parseState` (lines 430-443), accumulating the
optional entry-action name. -/
def stateLoop : Nat → Option String → PState → PRes (Option String)
  | 0, _, _ => .error .noFuel
  | fuel + 1, entryAction, s =>
    if checkT s .RBRACE none || checkT s .EOF none then .ok (entryAction, s)
    else if checkT s .KEYWORD (some "entry") then
      let s1 := (advanceT s).2
      match matchT s1 .KEYWORD (some "action") with
      | (true, s2) =>
        match expectT s2 .IDENTIFIER none with
        | .error e => .error e
        | .ok (actTok, s3) =>
          match matchT s3 .LBRACE none with
          | (true, s4) =>
            match skipActionBody fuel s4 with
            | .error e => .error e
            | .ok (_, s5) =>
              match expectT s5 .RBRACE none with
              | .error e => .error e
              | .ok (_, s6) => stateLoop fuel (some actTok.value) s6
          | (false, s4) => stateLoop fuel (some actTok.value) s4
      | (false, s2) => stateLoop fuel entryAction s2
    else stateLoop fuel entryAction (advanceT s).2

/-- `parseState(parent)` (lines 415-449). -/
def parseState (parent : Nat) (fuel : Nat) (s : PState) : PRes Nat :=
  match expectT s .KEYWORD (some "state") with
  | .error e => .error e
  | .ok (_, s1) =>
    match expectT s1 .IDENTIFIER none with
    | .error e => .error e
    | .ok (nameTok, s2) =>
      let (id, s3) := generateId s2
      let mk (entryAction : Option String) : Element :=
        { type := .state, name := nameTok.value, id,
          parent := some parent, children := [], entryAction }
      match matchT s3 .LBRACE none with
      | (true, s4) =>
        match stateLoop fuel none s4 with
        | .error e => .error e
        | .ok (entryAction, s5) =>
          match expectT s5 .RBRACE none with
          | .error e => .error e
          | .ok (_, s6) => .ok (id, setElem s6 id (mk entryAction))
      | (false, s4) => .ok (id, setElem s4 id (mk none))

/-- The clause-scanning loop of `parseTransition` (lines 460-470):
`first X` sets the source, `accept X` the trigger, `then X` the target,
each assignment overwriting the previous value. -/
def transLoop : Nat → String → String → Option String → PState →
    PRes (String × String × Option String)
  | 0, _, _, _, _ => .error .noFuel
  | fuel + 1, source, target, trigger, s =>
    if checkT s .SEMICOLON none || checkT s .RBRACE none
        || checkT s .EOF none then
      .ok ((source, target, trigger), s)
    else
      match matchT s .KEYWORD (some "first") with
      | (true, s1) =>
        match expectT s1 .IDENTIFIER none with
        | .error e => .error e
        | .ok (t, s2) => transLoop fuel t.value target trigger s2
      | (false, _) =>
        match matchT s .KEYWORD (some "accept") with
        | (true, s1) =>
          match expectT s1 .IDENTIFIER none with
          | .error e => .error e
          | .ok (t, s2) => transLoop fuel source target (some t.value) s2
        | (false, _) =>
          match matchT s .KEYWORD (some "then") with
          | (true, s1) =>
            match expectT s1 .IDENTIFIER none with
            | .error e => .error e
            | .ok (t, s2) => transLoop fuel source t.value trigger s2
          | (false, _) => transLoop fuel source target trigger (advanceT s).2

/-- `parseTransition(parent)` (lines 451-487). -/
def parseTransition (parent : Nat) (fuel : Nat) (s : PState) : PRes Nat :=
  match expectT s .KEYWORD (some "transition") with
  | .error e => .error e
  | .ok (_, s1) =>
    match expectT s1 .IDENTIFIER none with
    | .error e => .error e
    | .ok (nameTok, s2) =>
      let (id, s3) := generateId s2
      match transLoop fuel "" "" none s3 with
      | .error e => .error e
      | .ok (stt, s4) =>
        let s5 := (matchT s4 .SEMICOLON none).2
        let tr : Element :=
          { type := .transition, name := nameTok.value, id,
            parent := some parent, children := [], source := stt.1,
            target := stt.2.1, trigger := stt.2.2 }
        .ok (id, setElem s5 id tr)

/-- The skip loop for non-`connect` interface statements
(`parser.ts` lines 493-495). -/
def ifaceSkip : Nat → PState → PRes Unit
  | 0, _ => .error .noFuel
  | fuel + 1, s =>
    if !(checkT s .SEMICOLON none) && !(checkT s .RBRACE none)
        && !(checkT s .EOF none) then
      ifaceSkip fuel (advanceT s).2
    else .ok ((), s)

/-- `parseConnection(parent)` (lines 489-521): returns `none` when the
`interface` statement is not a `connect` and is skipped. -/
def parseConnection (parent : Nat) (fuel : Nat) (s : PState) :
    PRes (Option Nat) :=
  match expectT s .KEYWORD (some "interface") with
  | .error e => .error e
  | .ok (_, s1) =>
    match matchT s1 .KEYWORD (some "connect") with
    | (false, s2) =>
      match ifaceSkip fuel s2 with
      | .error e => .error e
      | .ok (_, s3) =>
        let s4 := (matchT s3 .SEMICOLON none).2
        .ok (none, s4)
    | (true, s2) =>
      match expectT s2 .LPAREN none with
      | .error e => .error e
      | .ok (_, s3) =>
        match parseQualifiedName fuel s3 with
        | .error e => .error e
        | .ok (source, s4) =>
          match expectT s4 .COMMA none with
          | .error e => .error e
          | .ok (_, s5) =>
            match parseQualifiedName fuel s5 with
            | .error e => .error e
            | .ok (target, s6) =>
              match expectT s6 .RPAREN none with
              | .error e => .error e
              | .ok (_, s7) =>
                let s8 := (matchT s7 .SEMICOLON none).2
                let (id, s9) := generateId s8
                let conn : Element :=
                  { type := .connection, name := source ++ "->" ++ target,
                    id, parent := some parent, children := [], source, target }
                .ok (some id, setElem s9 id conn)

/-- `parseBind(parent)` (lines 523-544). -/
def parseBind (parent : Nat) (fuel : Nat) (s : PState) : PRes Nat :=
  match expectT s .KEYWORD (some "bind") with
  | .error e => .error e
  | .ok (_, s1) =>
    match parseQualifiedName fuel s1 with
    | .error e => .error e
    | .ok (source, s2) =>
      match expectT s2 .EQUALS none with
      | .error e => .error e
      | .ok (_, s3) =>
        match parseQualifiedName fuel s3 with
        | .error e => .error e
        | .ok (target, s4) =>
          let s5 := (matchT s4 .SEMICOLON none).2
          let (id, s6) := generateId s5
          let bd : Element :=
            { type := .bind, name := source ++ "=" ++ target, id,
              parent := some parent, children := [], source, target }
          .ok (id, setElem s6 id bd)

/-- The body loop of `parseStateDef` (`parseStateDefBody`, lines 391-413),
threading the state-machine element record whose `states`, `transitions`
and `children` lists are grown. -/
def stateDefBodyLoop : Nat → Nat → Element → PState → PRes Element
  | 0, _, _, _ => .error .noFuel
  | fuel + 1, pid, r, s =>
    if checkT s .RBRACE none || checkT s .EOF none then .ok (r, s)
    else if checkT s .KEYWORD (some "state") then
      match parseState pid fuel s with
      | .error e => .error e
      | .ok (stateId, s1) =>
        stateDefBodyLoop fuel pid
          { r with states := r.states ++ [stateId],
                   children := r.children ++ [stateId] } s1
    else if checkT s .KEYWORD (some "transition") then
      match parseTransition pid fuel s with
      | .error e => .error e
      | .ok (transId, s1) =>
        stateDefBodyLoop fuel pid
          { r with transitions := r.transitions ++ [transId],
                   children := r.children ++ [transId] } s1
    else if checkT s .KEYWORD (some "entry") then
      let s1 := (advanceT s).2
      let s2 := (matchT s1 .SEMICOLON none).2
      match matchT s2 .KEYWORD (some "then") with
      | (true, s3) =>
        match expectT s3 .IDENTIFIER none with
        | .error e => .error e
        | .ok (_, s4) =>
          let s5 := (matchT s4 .SEMICOLON none).2
          stateDefBodyLoop fuel pid r s5
      | (false, s3) => stateDefBodyLoop fuel pid r s3
    else stateDefBodyLoop fuel pid r (advanceT s).2

/-- `parseStateDef(parent)` (lines 365-389).  The element is inserted
into the map only after its body has been parsed. -/
def parseStateDef (parent : Nat) (fuel : Nat) (s : PState) : PRes Nat :=
  match expectT s .KEYWORD (some "state") with
  | .error e => .error e
  | .ok (_, s1) =>
    match expectT s1 .KEYWORD (some "def") with
    | .error e => .error e
    | .ok (_, s2) =>
      match expectT s2 .IDENTIFIER none with
      | .error e => .error e
      | .ok (nameTok, s3) =>
        let (id, s4) := generateId s3
        let r0 : Element :=
          { type := .state_def, name := nameTok.value, id,
            parent := some parent, children := [], states := [],
            transitions := [] }
        match matchT s4 .LBRACE none with
        | (true, s5) =>
          match stateDefBodyLoop fuel id r0 s5 with
          | .error e => .error e
          | .ok (r, s6) =>
            match expectT s6 .RBRACE none with
            | .error e => .error e
            | .ok (_, s7) => .ok (id, setElem s7 id r)
        | (false, s5) => .ok (id, setElem s5 id r0)

/-- The body loop of `parsePartDef` (`parsePartDefBody`, lines 245-268),
threading the part-definition record whose `ports`, `parts` and
`children` lists are grown. -/
def partDefBodyLoop : Nat → Nat → Element → PState → PRes Element
  | 0, _, _, _ => .error .noFuel
  | fuel + 1, pid, r, s =>
    if checkT s .RBRACE none || checkT s .EOF none then .ok (r, s)
    else if checkT s .KEYWORD (some "port") then
      match parsePort pid s with
      | .error e => .error e
      | .ok (portId, s1) =>
        partDefBodyLoop fuel pid
          { r with ports := r.ports ++ [portId],
                   children := r.children ++ [portId] } s1
    else if checkT s .KEYWORD (some "part") then
      match parsePart pid s with
      | .error e => .error e
      | .ok (childPartId, s1) =>
        partDefBodyLoop fuel pid
          { r with parts := r.parts ++ [childPartId],
                   children := r.children ++ [childPartId] } s1
    else if checkT s .KEYWORD (some "state") && lookAheadT s .KEYWORD (some "def") then
      match parseStateDef pid fuel s with
      | .error e => .error e
      | .ok (stateDefId, s1) =>
        partDefBodyLoop fuel pid
          { r with children := r.children ++ [stateDefId] } s1
    else if checkT s .KEYWORD (some "interface") then
      match parseConnection pid fuel s with
      | .error e => .error e
      | .ok (some connId, s1) =>
        partDefBodyLoop fuel pid
          { r with children := r.children ++ [connId] } s1
      | .ok (none, s1) => partDefBodyLoop fuel pid r s1
    else if checkT s .KEYWORD (some "bind") then
      match parseBind pid fuel s with
      | .error e => .error e
      | .ok (bindId, s1) =>
        partDefBodyLoop fuel pid
          { r with children := r.children ++ [bindId] } s1
    else partDefBodyLoop fuel pid r (advanceT s).2

/-- `parsePartDef(parent)` (lines 217-243).  The element is inserted
into the map only after its body has been parsed. -/
def parsePartDef (parent : Nat) (fuel : Nat) (s : PState) : PRes Nat :=
  match expectT s .KEYWORD (some "part") with
  | .error e => .error e
  | .ok (_, s1) =>
    match expectT s1 .KEYWORD (some "def") with
    | .error e => .error e
    | .ok (_, s2) =>
      match expectT s2 .IDENTIFIER none with
      | .error e => .error e
      | .ok (nameTok, s3) =>
        let (id, s4) := generateId s3
        let r0 : Element :=
          { type := .part_def, name := nameTok.value, id,
            parent := some parent, children := [], ports := [], parts := [] }
        match matchT s4 .LBRACE none with
        | (true, s5) =>
          match partDefBodyLoop fuel id r0 s5 with
          | .error e => .error e
          | .ok (r, s6) =>
            match expectT s6 .RBRACE none with
            | .error e => .error e
            | .ok (_, s7) => .ok (id, setElem s7 id r)
        | (false, s5) =>
          let s6 := (matchT s5 .SEMICOLON none).2
          .ok (id, setElem s6 id r0)

/-- The dispatch loop of `parsePackageBody` (lines 103-136): each parsed
element's id is pushed onto the parent package's `children` (through the
live map reference). -/
def packageBodyLoop : Nat → Nat → PState → PRes Unit
  | 0, _, _ => .error .noFuel
  | fuel + 1, pid, s =>
    if checkT s .RBRACE none || checkT s .EOF none then .ok ((), s)
    else if checkT s .KEYWORD (some "item") && lookAheadT s .KEYWORD (some "def") then
      match parseItemDef pid fuel s with
      | .error e => .error e
      | .ok (elemId, s1) => packageBodyLoop fuel pid (addChild s1 pid elemId)
    else if checkT s .KEYWORD (some "port") && lookAheadT s .KEYWORD (some "def") then
      match parsePortDef pid fuel s with
      | .error e => .error e
      | .ok (elemId, s1) => packageBodyLoop fuel pid (addChild s1 pid elemId)
    else if checkT s .KEYWORD (some "part") && lookAheadT s .KEYWORD (some "def") then
      match parsePartDef pid fuel s with
      | .error e => .error e
      | .ok (elemId, s1) => packageBodyLoop fuel pid (addChild s1 pid elemId)
    else if checkT s .KEYWORD (some "part") then
      match parsePart pid s with
      | .error e => .error e
      | .ok (elemId, s1) => packageBodyLoop fuel pid (addChild s1 pid elemId)
    else if checkT s .KEYWORD (some "requirement") && lookAheadT s .KEYWORD (some "def") then
      match parseRequirementDef pid fuel s with
      | .error e => .error e
      | .ok (elemId, s1) => packageBodyLoop fuel pid (addChild s1 pid elemId)
    else if checkT s .KEYWORD (some "state") && lookAheadT s .KEYWORD (some "def") then
      match parseStateDef pid fuel s with
      | .error e => .error e
      | .ok (elemId, s1) => packageBodyLoop fuel pid (addChild s1 pid elemId)
    else if checkT s .KEYWORD (some "interface") then
      match parseConnection pid fuel s with
      | .error e => .error e
      | .ok (some elemId, s1) => packageBodyLoop fuel pid (addChild s1 pid elemId)
      | .ok (none, s1) => packageBodyLoop fuel pid s1
    else if checkT s .KEYWORD (some "bind") then
      match parseBind pid fuel s with
      | .error e => .error e
      | .ok (elemId, s1) => packageBodyLoop fuel pid (addChild s1 pid elemId)
    else packageBodyLoop fuel pid (advanceT s).2

/-- `parsePackage(parent?)` (lines 79-101): registers the package into
the map (and as root when it has no parent) before parsing the body. -/
def parsePackage (parent : Option Nat) (fuel : Nat) (s : PState) : PRes Unit :=
  match expectT s .KEYWORD (some "package") with
  | .error e => .error e
  | .ok (_, s1) =>
    match expectT s1 .IDENTIFIER none with
    | .error e => .error e
    | .ok (nameTok, s2) =>
      let (id, s3) := generateId s2
      let pkg : Element :=
        { type := .package, name := nameTok.value, id, parent, children := [] }
      let s4 := setElem s3 id pkg
      let s5 := if parent = none then { s4 with rootPackage := some id } else s4
      match expectT s5 .LBRACE none with
      | .error e => .error e
      | .ok (_, s6) =>
        match packageBodyLoop fuel id s6 with
        | .error e => .error e
        | .ok (_, s7) =>
          match expectT s7 .RBRACE none with
          | .error e => .error e
          | .ok (_, s8) => .ok ((), s8)

/-- `parse(source)` (lines 26-38): lexes, drops comment tokens, resets
the parser state, and parses a top-level package if and only if the
first token is the `package` keyword. -/
def parse (fuel : Nat) (source : String) : Except PErr Model :=
  let toks := (tokenize source).filter (fun t => t.type != TokenType.COMMENT)
  let s0 : PState :=
    { tokens := toks, pos := 0, elements := [], rootPackage := none,
      idCounter := 0 }
  if checkT s0 .KEYWORD (some "package") then
    match parsePackage none fuel s0 with
    | .error e => .error e
    | .ok (_, s1) => .ok { elements := s1.elements, rootPackage := s1.rootPackage }
  else .ok { elements := s0.elements, rootPackage := s0.rootPackage }

/-- The `parse` method called on a (possibly reused) parser instance:
lines 27-30 overwrite every instance field (`tokens`, `pos`, `model`,
`idCounter`) before parsing, so the prior instance state `inst` is
discarded wholesale. -/
def parseOn (inst : PState) (fuel : Nat) (source : String) : Except PErr Model :=
  let _ := inst
  parse fuel source

/-- `getElement(id)` from the model context (query layer). -/
def getElement (m : Model) (id : Nat) : Option Element :=
  mapGet m.elements id

/-- `getChildren(id)` from the model context: the parent's child-id list
mapped through the element map, dropping unresolved ids. -/
def getChildren (m : Model) (id : Nat) : List Element :=
  match mapGet m.elements id with
  | none => []
  | some e => e.children.filterMap (mapGet m.elements)

/-- `getRootElements()` from the model context. -/
def getRootElements (m : Model) : List Element :=
  match m.rootPackage with
  | none => []
  | some rid => getChildren m rid

/-- `getPartDefs()` from the model context: a linear scan filtered on
the `part_def` variant tag. -/
def getPartDefs (m : Model) : List Element :=
  (m.elements.map Prod.snd).filter (fun e => e.type == EType.part_def)

/-- `getConnections()` from the model context: a linear scan keeping
elements whose tag is `connection` or `bind`. -/
def getConnections (m : Model) : List Element :=
  (m.elements.map Prod.snd).filter
    (fun e => e.type == EType.connection || e.type == EType.bind)

/-! ### Spec-level predicates and concrete instances -/

/-- The `parse` entry check (`parser.ts` line 33) as a predicate on the
source: the first non-comment token is the keyword `package`. -/
def startsWithPackage (source : String) : Bool :=
  checkT ⟨(tokenize source).filter (fun t => t.type != TokenType.COMMENT),
    0, [], none, 0⟩ .KEYWORD (some "package")

/-- The spec's parent-consistency property of a Model: every child id of
every element resolves through `getElement` to an element whose parent
is the containing element's id. -/
def ParentConsistent (m : Model) : Prop :=
  ∀ p ∈ m.elements, ∀ c ∈ p.2.children,
    ∃ e, getElement m c = some e ∧ e.parent = some p.1

/-- The spec's convenience-list property of a Model: on part definitions
`ports`/`parts`, and on state-machine definitions `states`/`transitions`,
are sublists (order-preserving subsets) of `children`. -/
def ListsConsistent (m : Model) : Prop :=
  ∀ p ∈ m.elements,
    (p.2.type = .part_def →
      List.Sublist p.2.ports p.2.children ∧ List.Sublist p.2.parts p.2.children) ∧
    (p.2.type = .state_def →
      List.Sublist p.2.states p.2.children ∧
        List.Sublist p.2.transitions p.2.children)

/-- A character (with its lookahead) matched by none of the lexer's
rules, i.e. one that falls through to the final skip case of the scan
loop (`lexer.ts` lines 199-201). -/
def noRuleMatches (c : Char) (cs : List Char) : Prop :=
  isSpaceChar c = false ∧
    ¬(c = '/' ∧ cs.head? = some '/') ∧
    ¬(c = '/' ∧ cs.head? = some '*') ∧
    c ≠ '"' ∧
    c.isDigit = false ∧
    ¬(c = '.' ∧ (cs.head?.map Char.isDigit).getD false = true) ∧
    isIdentStart c = false ∧
    singleTok c = none

/-- An input on which the original parser never terminates: the entry
action's body brace is never closed, so the skip loop at `parser.ts`
line 436 (which, unlike every other loop, does not test for EOF) runs
forever. -/
def badSource : String :=
  "package P \x7b state def S \x7b state A \x7b entry action go \x7b"

def badToks : List Token :=
  (tokenize badSource).filter (fun t => t.type != TokenType.COMMENT)

/-- The package element built while parsing `badSource`. -/
def C1pkg : Element :=
  { type := .package, name := "P", id := 1, parent := none, children := [] }

/-- The in-progress state-machine record while parsing `badSource`. -/
def C1r0 : Element :=
  { type := .state_def, name := "S", id := 2, parent := some 1,
    children := [], states := [], transitions := [] }

/-- Parser state at the top of the package body of `badSource`. -/
def C1S3 : PState := ⟨badToks, 3, [(1, C1pkg)], some 1, 1⟩

/-- Parser state at the top of the state-machine body of `badSource`. -/
def C1S7 : PState := ⟨badToks, 7, [(1, C1pkg)], some 1, 2⟩

/-- Parser state at the top of state `A`'s body in `badSource`. -/
def C1S10 : PState := ⟨badToks, 10, [(1, C1pkg)], some 1, 3⟩

/-- Parser state entering the entry-action body skip loop of `badSource`. -/
def C1S14 : PState := ⟨badToks, 14, [(1, C1pkg)], some 1, 3⟩

/-- A demonstration source exercising every construct kind. -/
def demoSource : String :=
  "package Pk \x7b part def P \x7b port p1; port p2; part a; part b; \x7d state def SM \x7b state OPEN; state CLOSED; transition t1 first OPEN accept go then CLOSED; \x7d interface connect (a.b, c.d); bind x.y = z.w; \x7d"

/-- The Model obtained by parsing `demoSource`. -/
def demoModel : Model :=
  match parse 100 demoSource with
  | .ok m => m
  | .error _ => ⟨[], none⟩

/-- The spec's round-trip example: a part definition with ports `p1, p2`
then sub-parts `a, b`. -/
def c5source : String :=
  "package Pk \x7b part def P \x7b port p1; port p2; part a; part b; \x7d \x7d"

/-- The Model obtained by parsing `c5source`; the part definition `P`
receives id 2, its ports ids 3 and 4, its sub-parts ids 5 and 6. -/
def c5model : Model :=
  match parse 100 c5source with
  | .ok m => m
  | .error _ => ⟨[], none⟩

/-- One clause of a transition body as scanned by `parseTransition`'s
loop (`parser.ts` lines 460-470): `first X`, `accept X` or `then X`. -/
inductive TClause where
  | first (x : String)
  | accepts (x : String)
  | thenTo (x : String)
deriving DecidableEq, Repr

/-- The effect of one clause on the loop's `(source, target, trigger)`
accumulator: each clause kind overwrites its field (`parser.ts` lines
461-466), so a later occurrence replaces an earlier one. -/
def applyClause : (String × String × Option String) → TClause →
    (String × String × Option String)
  | (_, tgt, trg), .first x => (x, tgt, trg)
  | (src, tgt, _), .accepts x => (src, tgt, some x)
  | (src, _, trg), .thenTo x => (src, x, trg)

/-- The token encoding of one clause: the clause keyword followed by an
identifier token carrying the referenced name. -/
def clauseToks : TClause → List Token
  | .first x => [⟨.KEYWORD, "first", 0, 0⟩, ⟨.IDENTIFIER, x, 0, 0⟩]
  | .accepts x => [⟨.KEYWORD, "accept", 0, 0⟩, ⟨.IDENTIFIER, x, 0, 0⟩]
  | .thenTo x => [⟨.KEYWORD, "then", 0, 0⟩, ⟨.IDENTIFIER, x, 0, 0⟩]

/-- The token encoding of a clause sequence. -/
def clausesToks (cls : List TClause) : List Token :=
  (cls.map clauseToks).flatten

/-- A concrete clause sequence with a repeated `first` clause, used to
exercise the universal transition-scan theorem. -/
def c6clauses : List TClause :=
  [TClause.first "A", TClause.accepts "x", TClause.thenTo "C",
   TClause.first "B"]

/-- A parser state positioned at the start of `c6clauses` followed by
the terminating semicolon. -/
def c6state : PState :=
  ⟨clausesToks c6clauses ++ [⟨.SEMICOLON, ";", 0, 0⟩], 0, [], none, 0⟩

/-! ### Association-list lemmas -/

theorem mapGet_eq_some_mem {es : List (Nat × Element)} {k : Nat} {v : Element}
    (h : mapGet es k = some v) : (k, v) ∈ es := by
  induction es with
  | nil => simp [mapGet] at h
  | cons p rest ih =>
    obtain ⟨k', v'⟩ := p
    simp only [mapGet] at h
    split at h
    · next heq =>
      injection h with h'
      subst heq; subst h'
      exact List.mem_cons_self _ _
    · exact List.mem_cons_of_mem _ (ih h)

theorem mapGet_set_self (es : List (Nat × Element)) (k : Nat) (v : Element) :
    mapGet (mapSet es k v) k = some v := by
  induction es with
  | nil => simp [mapSet, mapGet]
  | cons p rest ih =>
    obtain ⟨k', v'⟩ := p
    simp only [mapSet]
    split
    · simp [mapGet]
    · next hne => simp only [mapGet, if_neg hne]; exact ih

theorem mapGet_set_ne (es : List (Nat × Element)) {k k' : Nat} (v : Element)
    (h : k' ≠ k) : mapGet (mapSet es k v) k' = mapGet es k' := by
  induction es with
  | nil => simp [mapSet, mapGet, if_neg (Ne.symm h)]
  | cons p rest ih =>
    obtain ⟨k'', v''⟩ := p
    simp only [mapSet]
    split
    · next heq =>
      subst heq
      simp [mapGet, if_neg (Ne.symm h)]
    · simp only [mapGet]
      split
      · rfl
      · exact ih

theorem mapSet_fresh {es : List (Nat × Element)} {k : Nat} (v : Element)
    (h : ∀ p ∈ es, p.1 ≠ k) : mapSet es k v = es ++ [(k, v)] := by
  induction es with
  | nil => simp [mapSet]
  | cons p rest ih =>
    obtain ⟨k', v'⟩ := p
    have hk' : k' ≠ k := h (k', v') (List.mem_cons_self _ _)
    simp only [mapSet, if_neg hk', List.cons_append, List.cons.injEq, true_and]
    exact ih fun p hp => h p (List.mem_cons_of_mem _ hp)

theorem mapGet_append_left {es : List (Nat × Element)} {k : Nat} {v : Element}
    (l : List (Nat × Element)) (h : mapGet es k = some v) :
    mapGet (es ++ l) k = some v := by
  induction es with
  | nil => simp [mapGet] at h
  | cons p rest ih =>
    obtain ⟨k', v'⟩ := p
    simp only [mapGet] at h ⊢
    split
    · split at h
      · exact h
      · simp_all
    · split at h
      · simp_all
      · exact ih h

theorem mapGet_append_right {es : List (Nat × Element)} {k : Nat}
    (l : List (Nat × Element)) (h : ∀ p ∈ es, p.1 ≠ k) :
    mapGet (es ++ l) k = mapGet l k := by
  induction es with
  | nil => simp
  | cons p rest ih =>
    obtain ⟨k', v'⟩ := p
    have hk' : k' ≠ k := h (k', v') (List.mem_cons_self _ _)
    simp only [List.cons_append, mapGet, if_neg hk']
    exact ih fun p hp => h p (List.mem_cons_of_mem _ hp)

theorem mapGet_none_of_forall {es : List (Nat × Element)} {k : Nat}
    (h : ∀ p ∈ es, p.1 ≠ k) : mapGet es k = none := by
  induction es with
  | nil => rfl
  | cons p rest ih =>
    obtain ⟨k', v'⟩ := p
    have hk' : k' ≠ k := h (k', v') (List.mem_cons_self _ _)
    simp only [mapGet, if_neg hk']
    exact ih fun p hp => h p (List.mem_cons_of_mem _ hp)

/-! ### Model invariants -/

/-- Every key in the element map is bounded by the id counter. -/
def keysLe (es : List (Nat × Element)) (n : Nat) : Prop :=
  ∀ p ∈ es, p.1 ≤ n

/-- Child id `c` resolves in the map to an element whose parent is `pid`. -/
def childOk (es : List (Nat × Element)) (pid c : Nat) : Prop :=
  ∃ e, mapGet es c = some e ∧ e.parent = some pid

/-- The spec's parent-consistency invariant over an element map. -/
def parentInv (es : List (Nat × Element)) : Prop :=
  ∀ p ∈ es, ∀ c ∈ p.2.children, childOk es p.1 c

/-- The spec's convenience-list invariant for one element: `ports`,
`parts`, `states` and `transitions` are order-preserving subsets
(sublists) of `children`. -/
def listsInv (e : Element) : Prop :=
  List.Sublist e.ports e.children ∧ List.Sublist e.parts e.children ∧
    List.Sublist e.states e.children ∧ List.Sublist e.transitions e.children

/-- The convenience-list invariant over a whole element map. -/
def elemsInv (es : List (Nat × Element)) : Prop :=
  ∀ p ∈ es, listsInv p.2

/-- The well-formedness invariant maintained by the parser state. -/
def WFs (s : PState) : Prop :=
  keysLe s.elements s.idCounter ∧ parentInv s.elements ∧ elemsInv s.elements

/-- One parser production extends another state: the element map grows
by appending entries whose keys are strictly above the old counter. -/
def Extends (s s' : PState) : Prop :=
  s.idCounter ≤ s'.idCounter ∧
    ∃ nw, s'.elements = s.elements ++ nw ∧ ∀ p ∈ nw, s.idCounter < p.1

theorem Extends.rfl (s : PState) : Extends s s :=
  ⟨le_refl _, [], by simp⟩

theorem Extends.trans {s s' s'' : PState} (h1 : Extends s s')
    (h2 : Extends s' s'') : Extends s s'' := by
  obtain ⟨hc1, nw1, he1, hk1⟩ := h1
  obtain ⟨hc2, nw2, he2, hk2⟩ := h2
  refine ⟨le_trans hc1 hc2, nw1 ++ nw2, by simp [he2, he1], ?_⟩
  intro p hp
  rcases List.mem_append.1 hp with h | h
  · exact hk1 p h
  · exact lt_of_le_of_lt hc1 (hk2 p h)

theorem Extends.mapGet {s s' : PState} (h : Extends s s') {k : Nat}
    {v : Element} (hk : mapGet s.elements k = some v) :
    mapGet s'.elements k = some v := by
  obtain ⟨_, nw, he, _⟩ := h
  rw [he]
  exact mapGet_append_left _ hk

theorem Extends.childOk {s s' : PState} (h : Extends s s') {pid c : Nat}
    (hc : childOk s.elements pid c) : childOk s'.elements pid c := by
  obtain ⟨e, hge, hpe⟩ := hc
  exact ⟨e, h.mapGet hge, hpe⟩

/-! ### Cursor-only state changes -/

/-- The production changed nothing but the token cursor. -/
def posOnly (s s' : PState) : Prop :=
  s'.tokens = s.tokens ∧ s'.elements = s.elements ∧
    s'.rootPackage = s.rootPackage ∧ s'.idCounter = s.idCounter

theorem posOnly_rfl (s : PState) : posOnly s s := ⟨rfl, rfl, rfl, rfl⟩

theorem posOnly_trans {s s' s'' : PState} (h1 : posOnly s s')
    (h2 : posOnly s' s'') : posOnly s s'' :=
  ⟨h2.1.trans h1.1, h2.2.1.trans h1.2.1, h2.2.2.1.trans h1.2.2.1,
    h2.2.2.2.trans h1.2.2.2⟩

theorem posOnly_pos (s : PState) (p : Nat) : posOnly s { s with pos := p } :=
  ⟨rfl, rfl, rfl, rfl⟩

theorem matchT_true {s : PState} {ty : TokenType} {v : Option String}
    {s' : PState} (h : matchT s ty v = (true, s')) :
    s' = { s with pos := s.pos + 1 } := by
  unfold matchT at h
  split at h <;> simp_all

theorem matchT_false {s : PState} {ty : TokenType} {v : Option String}
    {s' : PState} (h : matchT s ty v = (false, s')) : s' = s := by
  unfold matchT at h
  split at h <;> simp_all

theorem expectT_ok {s : PState} {ty : TokenType} {v : Option String}
    {t : Token} {s' : PState} (h : expectT s ty v = .ok (t, s')) :
    t = currentTok s ∧ s' = { s with pos := s.pos + 1 } := by
  unfold expectT advanceT at h
  split at h <;> simp_all

theorem advanceT_snd (s : PState) : (advanceT s).2 = { s with pos := s.pos + 1 } := rfl

/-! ### The token-skipping loops change only the cursor -/

theorem itemSkip_posOnly : ∀ fuel s s', itemSkip fuel s = .ok ((), s') →
    posOnly s s' := by
  intro fuel
  induction fuel with
  | zero => intro s s' h; simp [itemSkip] at h
  | succ fuel ih =>
    intro s s' h
    simp only [itemSkip] at h
    split at h
    · have h' := ih _ _ h
      simp only [posOnly, advanceT_snd] at h' ⊢
      exact h'
    · simp only [Except.ok.injEq, Prod.mk.injEq, true_and] at h
      subst h
      exact posOnly_rfl s

theorem ifaceSkip_posOnly : ∀ fuel s s', ifaceSkip fuel s = .ok ((), s') →
    posOnly s s' := by
  intro fuel
  induction fuel with
  | zero => intro s s' h; simp [ifaceSkip] at h
  | succ fuel ih =>
    intro s s' h
    simp only [ifaceSkip] at h
    split at h
    · have h' := ih _ _ h
      simp only [posOnly, advanceT_snd] at h' ⊢
      exact h'
    · simp only [Except.ok.injEq, Prod.mk.injEq, true_and] at h
      subst h
      exact posOnly_rfl s

theorem skipActionBody_posOnly : ∀ fuel s s',
    skipActionBody fuel s = .ok ((), s') → posOnly s s' := by
  intro fuel
  induction fuel with
  | zero => intro s s' h; simp [skipActionBody] at h
  | succ fuel ih =>
    intro s s' h
    simp only [skipActionBody] at h
    split at h
    · simp only [Except.ok.injEq, Prod.mk.injEq, true_and] at h
      subst h
      exact posOnly_rfl s
    · have h' := ih _ _ h
      simp only [posOnly, advanceT_snd] at h' ⊢
      exact h'

theorem qualLoop_posOnly : ∀ fuel name s r s',
    qualLoop fuel name s = .ok (r, s') → posOnly s s' := by
  intro fuel
  induction fuel with
  | zero => intro name s r s' h; simp [qualLoop] at h
  | succ fuel ih =>
    intro name s r s' h
    simp only [qualLoop] at h
    split at h
    · next s1 heq =>
      split at h
      · exact absurd h (by simp)
      · next t s2 heq2 =>
        have h1 := matchT_true heq
        obtain ⟨-, h2⟩ := expectT_ok heq2
        subst h1; subst h2
        have h' := ih _ _ _ _ h
        simp only [posOnly] at h' ⊢
        exact h'
    · simp only [Except.ok.injEq, Prod.mk.injEq] at h
      obtain ⟨-, h2⟩ := h
      subst h2
      exact posOnly_rfl s

theorem parseQualifiedName_posOnly {fuel : Nat} {s : PState} {r : String}
    {s' : PState} (h : parseQualifiedName fuel s = .ok (r, s')) :
    posOnly s s' := by
  unfold parseQualifiedName at h
  split at h
  · exact absurd h (by simp)
  · next t s1 heq =>
    obtain ⟨-, h1⟩ := expectT_ok heq
    subst h1
    have h' := qualLoop_posOnly _ _ _ _ _ h
    simp only [posOnly] at h' ⊢
    exact h'

theorem posOnly_matchT_snd (s : PState) (ty : TokenType) (v : Option String) :
    posOnly s (matchT s ty v).2 := by
  unfold matchT
  split <;> exact ⟨rfl, rfl, rfl, rfl⟩

theorem transLoop_posOnly : ∀ fuel a b c s r s',
    transLoop fuel a b c s = .ok (r, s') → posOnly s s' := by
  intro fuel
  induction fuel with
  | zero => intro a b c s r s' h; simp [transLoop] at h
  | succ fuel ih =>
    intro a b c s r s' h
    simp only [transLoop] at h
    split at h
    · simp only [Except.ok.injEq, Prod.mk.injEq] at h
      obtain ⟨-, h2⟩ := h
      subst h2
      exact posOnly_rfl s
    · split at h
      · next s1 heq =>
        split at h
        · exact absurd h (by simp)
        · next t s2 heq2 =>
          obtain ⟨-, h2⟩ := expectT_ok heq2
          have h1 := matchT_true heq
          subst h1 h2
          refine posOnly_trans ?_ (ih _ _ _ _ _ _ h)
          exact ⟨rfl, rfl, rfl, rfl⟩
      · split at h
        · next s1 heq =>
          split at h
          · exact absurd h (by simp)
          · next t s2 heq2 =>
            obtain ⟨-, h2⟩ := expectT_ok heq2
            have h1 := matchT_true heq
            subst h1 h2
            refine posOnly_trans ?_ (ih _ _ _ _ _ _ h)
            exact ⟨rfl, rfl, rfl, rfl⟩
        · split at h
          · next s1 heq =>
            split at h
            · exact absurd h (by simp)
            · next t s2 heq2 =>
              obtain ⟨-, h2⟩ := expectT_ok heq2
              have h1 := matchT_true heq
              subst h1 h2
              refine posOnly_trans ?_ (ih _ _ _ _ _ _ h)
              exact ⟨rfl, rfl, rfl, rfl⟩
          · refine posOnly_trans ?_ (ih _ _ _ _ _ _ h)
            exact ⟨rfl, rfl, rfl, rfl⟩

theorem portDefLoop_posOnly : ∀ fuel items s r s',
    portDefLoop fuel items s = .ok (r, s') → posOnly s s' := by
  intro fuel
  induction fuel with
  | zero => intro items s r s' h; simp [portDefLoop] at h
  | succ fuel ih =>
    intro items s r s' h
    simp only [portDefLoop, advanceT] at h
    split at h
    · simp only [Except.ok.injEq, Prod.mk.injEq] at h
      obtain ⟨-, h2⟩ := h
      subst h2
      exact posOnly_rfl s
    · split at h
      · split at h
        · next s2 heq =>
          split at h
          · exact absurd h (by simp)
          · next t s3 heq2 =>
            obtain ⟨-, h3⟩ := expectT_ok heq2
            have h2 := matchT_true heq
            subst h2 h3
            split at h
            · next s4 heq3 =>
              split at h
              · exact absurd h (by simp)
              · next t2 s5 heq4 =>
                obtain ⟨-, h5⟩ := expectT_ok heq4
                have h4 := matchT_true heq3
                subst h4 h5
                refine posOnly_trans ?_ (ih _ _ _ _ h)
                exact posOnly_trans ⟨rfl, rfl, rfl, rfl⟩ (posOnly_matchT_snd _ _ _)
            · next s4 heq3 =>
              have h4 := matchT_false heq3
              subst h4
              refine posOnly_trans ?_ (ih _ _ _ _ h)
              exact posOnly_trans ⟨rfl, rfl, rfl, rfl⟩ (posOnly_matchT_snd _ _ _)
        · next s2 heq =>
          have h2 := matchT_false heq
          subst h2
          refine posOnly_trans ?_ (ih _ _ _ _ h)
          exact ⟨rfl, rfl, rfl, rfl⟩
      · refine posOnly_trans ?_ (ih _ _ _ _ h)
        exact ⟨rfl, rfl, rfl, rfl⟩

theorem reqLoop_posOnly : ∀ fuel a b s r s',
    reqLoop fuel a b s = .ok (r, s') → posOnly s s' := by
  intro fuel
  induction fuel with
  | zero => intro a b s r s' h; simp [reqLoop] at h
  | succ fuel ih =>
    intro a b s r s' h
    simp only [reqLoop, advanceT] at h
    split at h
    · simp only [Except.ok.injEq, Prod.mk.injEq] at h
      obtain ⟨-, h2⟩ := h
      subst h2
      exact posOnly_rfl s
    · split at h
      · split at h
        · exact absurd h (by simp)
        · next t s2 heq =>
          obtain ⟨-, h2⟩ := expectT_ok heq
          subst h2
          split at h
          · exact absurd h (by simp)
          · next t2 s3 heq2 =>
            obtain ⟨-, h3⟩ := expectT_ok heq2
            subst h3
            refine posOnly_trans ?_ (ih _ _ _ _ _ h)
            exact posOnly_trans ⟨rfl, rfl, rfl, rfl⟩ (posOnly_matchT_snd _ _ _)
      · split at h
        · split at h
          · exact absurd h (by simp)
          · next t s2 heq =>
            obtain ⟨-, h2⟩ := expectT_ok heq
            subst h2
            split at h
            · exact absurd h (by simp)
            · next t2 s3 heq2 =>
              obtain ⟨-, h3⟩ := expectT_ok heq2
              subst h3
              refine posOnly_trans ?_ (ih _ _ _ _ _ h)
              exact posOnly_trans ⟨rfl, rfl, rfl, rfl⟩ (posOnly_matchT_snd _ _ _)
        · refine posOnly_trans ?_ (ih _ _ _ _ _ h)
          exact ⟨rfl, rfl, rfl, rfl⟩

theorem stateLoop_posOnly : ∀ fuel ea s r s',
    stateLoop fuel ea s = .ok (r, s') → posOnly s s' := by
  intro fuel
  induction fuel with
  | zero => intro ea s r s' h; simp [stateLoop] at h
  | succ fuel ih =>
    intro ea s r s' h
    simp only [stateLoop, advanceT] at h
    split at h
    · simp only [Except.ok.injEq, Prod.mk.injEq] at h
      obtain ⟨-, h2⟩ := h
      subst h2
      exact posOnly_rfl s
    · split at h
      · split at h
        · next s2 heq =>
          have h2 := matchT_true heq
          subst h2
          split at h
          · exact absurd h (by simp)
          · next t s3 heq2 =>
            obtain ⟨-, h3⟩ := expectT_ok heq2
            subst h3
            split at h
            · next s4 heq3 =>
              have h4 := matchT_true heq3
              subst h4
              split at h
              · exact absurd h (by simp)
              · next u s5 heq4 =>
                split at h
                · exact absurd h (by simp)
                · next t2 s6 heq5 =>
                  obtain ⟨-, h6⟩ := expectT_ok heq5
                  have h5 := skipActionBody_posOnly _ _ _ heq4
                  subst h6
                  refine posOnly_trans ?_ (ih _ _ _ _ h)
                  refine posOnly_trans (posOnly_trans ⟨rfl, rfl, rfl, rfl⟩ h5) ?_
                  exact ⟨rfl, rfl, rfl, rfl⟩
            · next s4 heq3 =>
              have h4 := matchT_false heq3
              subst h4
              refine posOnly_trans ?_ (ih _ _ _ _ h)
              exact ⟨rfl, rfl, rfl, rfl⟩
        · next s2 heq =>
          have h2 := matchT_false heq
          subst h2
          refine posOnly_trans ?_ (ih _ _ _ _ h)
          exact ⟨rfl, rfl, rfl, rfl⟩
      · refine posOnly_trans ?_ (ih _ _ _ _ h)
        exact ⟨rfl, rfl, rfl, rfl⟩

/-! ### Inserting a freshly generated element preserves well-formedness -/

theorem keysLe_mono {es : List (Nat × Element)} {n m : Nat} (h : keysLe es n)
    (hnm : n ≤ m) : keysLe es m :=
  fun p hp => le_trans (h p hp) hnm

theorem childOk_append {es l : List (Nat × Element)} {pid c : Nat}
    (h : childOk es pid c) : childOk (es ++ l) pid c := by
  obtain ⟨e, he, hp⟩ := h
  exact ⟨e, mapGet_append_left _ he, hp⟩

theorem parentInv_append_fresh {es : List (Nat × Element)} {id : Nat}
    {e : Element} (hpi : parentInv es)
    (hch : ∀ c ∈ e.children, childOk es id c) :
    parentInv (es ++ [(id, e)]) := by
  intro p hp c hc
  rcases List.mem_append.1 hp with hh | hh
  · exact childOk_append (hpi p hh c hc)
  · simp only [List.mem_singleton] at hh
    subst hh
    exact childOk_append (hch c hc)

/-- Core insertion lemma: registering a freshly generated element into
the map preserves every invariant, extends the base state, and makes the
new id resolve to the new element. -/
theorem setElem_spec (s0 sF : PState) (n id : Nat) (e : Element)
    (nw : List (Nat × Element))
    (hn : s0.idCounter = n) (hid : id = n + 1)
    (hb0 : keysLe s0.elements n)
    (hF : sF.elements = s0.elements ++ nw) (hnw : ∀ p ∈ nw, id < p.1)
    (hFb : keysLe sF.elements sF.idCounter) (hFpi : parentInv sF.elements)
    (hFei : elemsInv sF.elements) (hFc : id ≤ sF.idCounter)
    (hch : ∀ c ∈ e.children, childOk sF.elements id c)
    (hli : listsInv e) :
    WFs (setElem sF id e) ∧ Extends s0 (setElem sF id e) ∧
      mapGet (setElem sF id e).elements id = some e ∧
      (setElem sF id e).idCounter = sF.idCounter := by
  have hfresh : ∀ p ∈ sF.elements, p.1 ≠ id := by
    intro p hp
    rw [hF] at hp
    rcases List.mem_append.1 hp with hh | hh
    · have := hb0 p hh
      omega
    · have := hnw p hh
      omega
  have hset : mapSet sF.elements id e = sF.elements ++ [(id, e)] :=
    mapSet_fresh e hfresh
  have helems : (setElem sF id e).elements = sF.elements ++ [(id, e)] := by
    simp [setElem, hset]
  have hcnt : (setElem sF id e).idCounter = sF.idCounter := rfl
  refine ⟨⟨?_, ?_, ?_⟩, ?_, ?_, hcnt⟩
  · -- keysLe
    rw [helems, hcnt]
    intro p hp
    rcases List.mem_append.1 hp with hh | hh
    · exact hFb p hh
    · simp only [List.mem_singleton] at hh
      subst hh
      exact hFc
  · -- parentInv
    rw [helems]
    exact parentInv_append_fresh hFpi hch
  · -- elemsInv
    rw [helems]
    intro p hp
    rcases List.mem_append.1 hp with hh | hh
    · exact hFei p hh
    · simp only [List.mem_singleton] at hh
      subst hh
      exact hli
  · -- Extends
    refine ⟨by rw [hcnt]; omega, nw ++ [(id, e)], ?_, ?_⟩
    · rw [helems, hF, List.append_assoc]
    · intro p hp
      rcases List.mem_append.1 hp with hh | hh
      · have := hnw p hh
        omega
      · simp only [List.mem_singleton] at hh
        subst hh
        omega
  · -- the new binding resolves
    simp only [setElem]
    exact mapGet_set_self _ _ _

theorem expectT_ok_posOnly {s : PState} {ty : TokenType} {v : Option String}
    {t : Token} {s' : PState} (h : expectT s ty v = .ok (t, s')) :
    posOnly s s' := by
  obtain ⟨-, h2⟩ := expectT_ok h
  subst h2
  exact ⟨rfl, rfl, rfl, rfl⟩

theorem matchT_posOnly {s : PState} {ty : TokenType} {v : Option String}
    {b : Bool} {s' : PState} (h : matchT s ty v = (b, s')) : posOnly s s' := by
  cases b
  · rw [matchT_false h]
    exact posOnly_rfl s
  · rw [matchT_true h]
    exact ⟨rfl, rfl, rfl, rfl⟩

/-- Common tail of the leaf productions: the freshly generated element
(no children of its own, parent set to the surrounding element) is
registered into the map. -/
theorem leaf_insert (s sF : PState) (id : Nat) (e : Element) (parent : Nat)
    (hWF : WFs s)
    (hel : sF.elements = s.elements) (hcnt : sF.idCounter = s.idCounter + 1)
    (hid : id = s.idCounter + 1)
    (hch : e.children = []) (hli : listsInv e) (hpar : e.parent = some parent) :
    WFs (setElem sF id e) ∧ Extends s (setElem sF id e) ∧
      childOk (setElem sF id e).elements parent id := by
  obtain ⟨hb, hpi, hei⟩ := hWF
  obtain ⟨hw, hx, hg, -⟩ := setElem_spec s sF s.idCounter id e []
    rfl hid hb
    (by simp [hel]) (by simp)
    (by rw [hel, hcnt]; exact keysLe_mono hb (by omega))
    (by rw [hel]; exact hpi) (by rw [hel]; exact hei)
    (by rw [hcnt]; omega)
    (by rw [hch]; intro c hc; simp at hc)
    hli
  exact ⟨hw, hx, ⟨e, hg, hpar⟩⟩

theorem parsePort_spec {parent : Nat} {s : PState} {id : Nat} {s' : PState}
    (hWF : WFs s) (h : parsePort parent s = .ok (id, s')) :
    WFs s' ∧ Extends s s' ∧ childOk s'.elements parent id := by
  unfold parsePort at h
  split at h
  · exact absurd h (by simp)
  · next t1 s1 heq1 =>
    split at h
    · exact absurd h (by simp)
    · next nameTok s2 heq2 =>
      have h02 : posOnly s s2 :=
        posOnly_trans (expectT_ok_posOnly heq1) (expectT_ok_posOnly heq2)
      simp only [generateId] at h
      split at h
      · next s4 heq3 =>
        split at h
        · exact absurd h (by simp)
        · next defTok s5 heq4 =>
          simp only [Except.ok.injEq, Prod.mk.injEq] at h
          obtain ⟨hid, hs'⟩ := h
          subst hs'
          subst hid
          have hA : posOnly ({ s2 with idCounter := s2.idCounter + 1 } : PState)
              ((matchT s5 .SEMICOLON none).2) :=
            posOnly_trans (matchT_posOnly heq3)
              (posOnly_trans (expectT_ok_posOnly heq4)
                (posOnly_matchT_snd s5 .SEMICOLON none))
          have hel : ((matchT s5 .SEMICOLON none).2).elements = s2.elements := hA.2.1
          have hcnt : ((matchT s5 .SEMICOLON none).2).idCounter = s2.idCounter + 1 :=
            hA.2.2.2
          have hc2 : s2.idCounter = s.idCounter := h02.2.2.2
          refine leaf_insert s _ _ _ parent hWF (hel.trans h02.2.1) ?_ ?_ ?_ ?_ ?_
          · rw [hcnt, hc2]
          · omega
          · rfl
          · simp [listsInv]
          · rfl
      · next s4 heq3 =>
        simp only [Except.ok.injEq, Prod.mk.injEq] at h
        obtain ⟨hid, hs'⟩ := h
        subst hs'
        subst hid
        have hA : posOnly ({ s2 with idCounter := s2.idCounter + 1 } : PState)
            ((matchT s4 .SEMICOLON none).2) :=
          posOnly_trans (matchT_posOnly heq3) (posOnly_matchT_snd s4 .SEMICOLON none)
        have hel : ((matchT s4 .SEMICOLON none).2).elements = s2.elements := hA.2.1
        have hcnt : ((matchT s4 .SEMICOLON none).2).idCounter = s2.idCounter + 1 :=
          hA.2.2.2
        have hc2 : s2.idCounter = s.idCounter := h02.2.2.2
        refine leaf_insert s _ _ _ parent hWF (hel.trans h02.2.1) ?_ ?_ ?_ ?_ ?_
        · rw [hcnt, hc2]
        · omega
        · rfl
        · simp [listsInv]
        · rfl

theorem WFs_of_posOnly {s s' : PState} (h : posOnly s s') (hWF : WFs s) :
    WFs s' := by
  unfold WFs
  rw [h.2.1, h.2.2.2]
  exact hWF

theorem Extends_of_posOnly {s s' : PState} (h : posOnly s s') : Extends s s' :=
  ⟨by rw [h.2.2.2], [], by rw [h.2.1, List.append_nil], by simp⟩

theorem parsePart_spec {parent : Nat} {s : PState} {id : Nat} {s' : PState}
    (hWF : WFs s) (h : parsePart parent s = .ok (id, s')) :
    WFs s' ∧ Extends s s' ∧ childOk s'.elements parent id := by
  simp only [parsePart] at h
  split at h
  · exact absurd h (by simp)
  · next t1 s1 heq1 =>
    split at h
    · exact absurd h (by simp)
    · next nameTok s2 heq2 =>
      have h02 : posOnly s s2 :=
        posOnly_trans (expectT_ok_posOnly heq1) (expectT_ok_posOnly heq2)
      have hc2 : s2.idCounter = s.idCounter := h02.2.2.2
      simp only [generateId] at h
      split at h
      · next s4 heq3 =>
        split at h
        · exact absurd h (by simp)
        · next defTok s5 heq4 =>
          split at h
          · next s6 heq5 =>
            split at h
            · exact absurd h (by simp)
            · next numTok s7 heq6 =>
              split at h
              · exact absurd h (by simp)
              · next t2 s8 heq7 =>
                simp only [Except.ok.injEq, Prod.mk.injEq] at h
                obtain ⟨hid, hs'⟩ := h
                subst hs'
                subst hid
                have hA : posOnly
                    ({ s2 with idCounter := s2.idCounter + 1 } : PState)
                    ((matchT s8 .SEMICOLON none).2) :=
                  posOnly_trans (matchT_posOnly heq3)
                    (posOnly_trans (expectT_ok_posOnly heq4)
                      (posOnly_trans (matchT_posOnly heq5)
                        (posOnly_trans (expectT_ok_posOnly heq6)
                          (posOnly_trans (expectT_ok_posOnly heq7)
                            (posOnly_matchT_snd s8 .SEMICOLON none)))))
                have hel : ((matchT s8 .SEMICOLON none).2).elements = s2.elements :=
                  hA.2.1
                have hcnt : ((matchT s8 .SEMICOLON none).2).idCounter =
                    s2.idCounter + 1 := hA.2.2.2
                refine leaf_insert s _ _ _ parent hWF (hel.trans h02.2.1) ?_ ?_ ?_ ?_ ?_
                · rw [hcnt, hc2]
                · omega
                · rfl
                · simp [listsInv]
                · rfl
          · next s6 heq5 =>
            simp only [Except.ok.injEq, Prod.mk.injEq] at h
            obtain ⟨hid, hs'⟩ := h
            subst hs'
            subst hid
            have hA : posOnly ({ s2 with idCounter := s2.idCounter + 1 } : PState)
                ((matchT s6 .SEMICOLON none).2) :=
              posOnly_trans (matchT_posOnly heq3)
                (posOnly_trans (expectT_ok_posOnly heq4)
                  (posOnly_trans (matchT_posOnly heq5)
                    (posOnly_matchT_snd s6 .SEMICOLON none)))
            have hel : ((matchT s6 .SEMICOLON none).2).elements = s2.elements :=
              hA.2.1
            have hcnt : ((matchT s6 .SEMICOLON none).2).idCounter =
                s2.idCounter + 1 := hA.2.2.2
            refine leaf_insert s _ _ _ parent hWF (hel.trans h02.2.1) ?_ ?_ ?_ ?_ ?_
            · rw [hcnt, hc2]
            · omega
            · rfl
            · simp [listsInv]
            · rfl
      · next s4 heq3 =>
        simp only [Except.ok.injEq, Prod.mk.injEq] at h
        obtain ⟨hid, hs'⟩ := h
        subst hs'
        subst hid
        have hA : posOnly ({ s2 with idCounter := s2.idCounter + 1 } : PState)
            ((matchT s4 .SEMICOLON none).2) :=
          posOnly_trans (matchT_posOnly heq3) (posOnly_matchT_snd s4 .SEMICOLON none)
        have hel : ((matchT s4 .SEMICOLON none).2).elements = s2.elements := hA.2.1
        have hcnt : ((matchT s4 .SEMICOLON none).2).idCounter = s2.idCounter + 1 :=
          hA.2.2.2
        refine leaf_insert s _ _ _ parent hWF (hel.trans h02.2.1) ?_ ?_ ?_ ?_ ?_
        · rw [hcnt, hc2]
        · omega
        · rfl
        · simp [listsInv]
        · rfl

theorem parseItemDef_spec {parent : Nat} {fuel : Nat} {s : PState} {id : Nat}
    {s' : PState} (hWF : WFs s) (h : parseItemDef parent fuel s = .ok (id, s')) :
    WFs s' ∧ Extends s s' ∧ childOk s'.elements parent id := by
  unfold parseItemDef at h
  split at h
  · exact absurd h (by simp)
  · next t1 s1 heq1 =>
    split at h
    · exact absurd h (by simp)
    · next t2 s2 heq2 =>
      split at h
      · exact absurd h (by simp)
      · next nameTok s3 heq3 =>
        have h03 : posOnly s s3 :=
          posOnly_trans (expectT_ok_posOnly heq1)
            (posOnly_trans (expectT_ok_posOnly heq2) (expectT_ok_posOnly heq3))
        have hc3 : s3.idCounter = s.idCounter := h03.2.2.2
        simp only [generateId] at h
        split at h
        · next s5 heq4 =>
          split at h
          · exact absurd h (by simp)
          · next u s6 heq5 =>
            split at h
            · exact absurd h (by simp)
            · next t3 s7 heq6 =>
              simp only [Except.ok.injEq, Prod.mk.injEq] at h
              obtain ⟨hid, hs'⟩ := h
              subst hs'
              subst hid
              have hA : posOnly ({ s3 with idCounter := s3.idCounter + 1 } : PState) s7 :=
                posOnly_trans (matchT_posOnly heq4)
                  (posOnly_trans (itemSkip_posOnly _ _ _ heq5)
                    (expectT_ok_posOnly heq6))
              refine leaf_insert s _ _ _ parent hWF (hA.2.1.trans h03.2.1) ?_ ?_ ?_ ?_ ?_
              · rw [hA.2.2.2, hc3]
              · omega
              · rfl
              · simp [listsInv]
              · rfl
        · next s5 heq4 =>
          simp only [Except.ok.injEq, Prod.mk.injEq] at h
          obtain ⟨hid, hs'⟩ := h
          subst hs'
          subst hid
          have hA : posOnly ({ s3 with idCounter := s3.idCounter + 1 } : PState)
              ((matchT s5 .SEMICOLON none).2) :=
            posOnly_trans (matchT_posOnly heq4) (posOnly_matchT_snd s5 .SEMICOLON none)
          refine leaf_insert s _ _ _ parent hWF (hA.2.1.trans h03.2.1) ?_ ?_ ?_ ?_ ?_
          · rw [hA.2.2.2, hc3]
          · omega
          · rfl
          · simp [listsInv]
          · rfl

theorem parsePortDef_spec {parent : Nat} {fuel : Nat} {s : PState} {id : Nat}
    {s' : PState} (hWF : WFs s) (h : parsePortDef parent fuel s = .ok (id, s')) :
    WFs s' ∧ Extends s s' ∧ childOk s'.elements parent id := by
  simp only [parsePortDef] at h
  split at h
  · exact absurd h (by simp)
  · next t1 s1 heq1 =>
    split at h
    · exact absurd h (by simp)
    · next t2 s2 heq2 =>
      split at h
      · exact absurd h (by simp)
      · next nameTok s3 heq3 =>
        have h03 : posOnly s s3 :=
          posOnly_trans (expectT_ok_posOnly heq1)
            (posOnly_trans (expectT_ok_posOnly heq2) (expectT_ok_posOnly heq3))
        have hc3 : s3.idCounter = s.idCounter := h03.2.2.2
        simp only [generateId] at h
        split at h
        · next s5 heq4 =>
          split at h
          · exact absurd h (by simp)
          · next items s6 heq5 =>
            split at h
            · exact absurd h (by simp)
            · next t3 s7 heq6 =>
              simp only [Except.ok.injEq, Prod.mk.injEq] at h
              obtain ⟨hid, hs'⟩ := h
              subst hs'
              subst hid
              have hA : posOnly ({ s3 with idCounter := s3.idCounter + 1 } : PState) s7 :=
                posOnly_trans (matchT_posOnly heq4)
                  (posOnly_trans (portDefLoop_posOnly _ _ _ _ _ heq5)
                    (expectT_ok_posOnly heq6))
              refine leaf_insert s _ _ _ parent hWF (hA.2.1.trans h03.2.1) ?_ ?_ ?_ ?_ ?_
              · rw [hA.2.2.2, hc3]
              · omega
              · rfl
              · simp [listsInv]
              · rfl
        · next s5 heq4 =>
          simp only [Except.ok.injEq, Prod.mk.injEq] at h
          obtain ⟨hid, hs'⟩ := h
          subst hs'
          subst hid
          have hA : posOnly ({ s3 with idCounter := s3.idCounter + 1 } : PState)
              ((matchT s5 .SEMICOLON none).2) :=
            posOnly_trans (matchT_posOnly heq4) (posOnly_matchT_snd s5 .SEMICOLON none)
          refine leaf_insert s _ _ _ parent hWF (hA.2.1.trans h03.2.1) ?_ ?_ ?_ ?_ ?_
          · rw [hA.2.2.2, hc3]
          · omega
          · rfl
          · simp [listsInv]
          · rfl

theorem parseRequirementDef_spec {parent : Nat} {fuel : Nat} {s : PState}
    {id : Nat} {s' : PState} (hWF : WFs s)
    (h : parseRequirementDef parent fuel s = .ok (id, s')) :
    WFs s' ∧ Extends s s' ∧ childOk s'.elements parent id := by
  simp only [parseRequirementDef] at h
  split at h
  · exact absurd h (by simp)
  · next t1 s1 heq1 =>
    split at h
    · exact absurd h (by simp)
    · next t2 s2 heq2 =>
      split at h
      · exact absurd h (by simp)
      · next nameTok s3 heq3 =>
        have h03 : posOnly s s3 :=
          posOnly_trans (expectT_ok_posOnly heq1)
            (posOnly_trans (expectT_ok_posOnly heq2) (expectT_ok_posOnly heq3))
        have hc3 : s3.idCounter = s.idCounter := h03.2.2.2
        simp only [generateId] at h
        split at h
        · next s5 heq4 =>
          split at h
          · exact absurd h (by simp)
          · next rt s6 heq5 =>
            split at h
            · exact absurd h (by simp)
            · next t3 s7 heq6 =>
              obtain ⟨reqId, text⟩ := rt
              simp only [Except.ok.injEq, Prod.mk.injEq] at h
              obtain ⟨hid, hs'⟩ := h
              subst hs'
              subst hid
              have hA : posOnly ({ s3 with idCounter := s3.idCounter + 1 } : PState) s7 :=
                posOnly_trans (matchT_posOnly heq4)
                  (posOnly_trans (reqLoop_posOnly _ _ _ _ _ _ heq5)
                    (expectT_ok_posOnly heq6))
              refine leaf_insert s _ _ _ parent hWF (hA.2.1.trans h03.2.1) ?_ ?_ ?_ ?_ ?_
              · rw [hA.2.2.2, hc3]
              · omega
              · rfl
              · simp [listsInv]
              · rfl
        · next s5 heq4 =>
          simp only [Except.ok.injEq, Prod.mk.injEq] at h
          obtain ⟨hid, hs'⟩ := h
          subst hs'
          subst hid
          have hA : posOnly ({ s3 with idCounter := s3.idCounter + 1 } : PState) s5 :=
            matchT_posOnly heq4
          refine leaf_insert s _ _ _ parent hWF (hA.2.1.trans h03.2.1) ?_ ?_ ?_ ?_ ?_
          · rw [hA.2.2.2, hc3]
          · omega
          · rfl
          · simp [listsInv]
          · rfl

theorem parseState_spec {parent : Nat} {fuel : Nat} {s : PState} {id : Nat}
    {s' : PState} (hWF : WFs s) (h : parseState parent fuel s = .ok (id, s')) :
    WFs s' ∧ Extends s s' ∧ childOk s'.elements parent id := by
  simp only [parseState] at h
  split at h
  · exact absurd h (by simp)
  · next t1 s1 heq1 =>
    split at h
    · exact absurd h (by simp)
    · next nameTok s2 heq2 =>
      have h02 : posOnly s s2 :=
        posOnly_trans (expectT_ok_posOnly heq1) (expectT_ok_posOnly heq2)
      have hc2 : s2.idCounter = s.idCounter := h02.2.2.2
      simp only [generateId] at h
      split at h
      · next s4 heq3 =>
        split at h
        · exact absurd h (by simp)
        · next ea s5 heq4 =>
          split at h
          · exact absurd h (by simp)
          · next t2 s6 heq5 =>
            simp only [Except.ok.injEq, Prod.mk.injEq] at h
            obtain ⟨hid, hs'⟩ := h
            subst hs'
            subst hid
            have hA : posOnly ({ s2 with idCounter := s2.idCounter + 1 } : PState) s6 :=
              posOnly_trans (matchT_posOnly heq3)
                (posOnly_trans (stateLoop_posOnly _ _ _ _ _ heq4)
                  (expectT_ok_posOnly heq5))
            refine leaf_insert s _ _ _ parent hWF (hA.2.1.trans h02.2.1) ?_ ?_ ?_ ?_ ?_
            · rw [hA.2.2.2, hc2]
            · omega
            · rfl
            · simp [listsInv]
            · rfl
      · next s4 heq3 =>
        simp only [Except.ok.injEq, Prod.mk.injEq] at h
        obtain ⟨hid, hs'⟩ := h
        subst hs'
        subst hid
        have hA : posOnly ({ s2 with idCounter := s2.idCounter + 1 } : PState) s4 :=
          matchT_posOnly heq3
        refine leaf_insert s _ _ _ parent hWF (hA.2.1.trans h02.2.1) ?_ ?_ ?_ ?_ ?_
        · rw [hA.2.2.2, hc2]
        · omega
        · rfl
        · simp [listsInv]
        · rfl

theorem parseTransition_spec {parent : Nat} {fuel : Nat} {s : PState} {id : Nat}
    {s' : PState} (hWF : WFs s) (h : parseTransition parent fuel s = .ok (id, s')) :
    WFs s' ∧ Extends s s' ∧ childOk s'.elements parent id := by
  simp only [parseTransition] at h
  split at h
  · exact absurd h (by simp)
  · next t1 s1 heq1 =>
    split at h
    · exact absurd h (by simp)
    · next nameTok s2 heq2 =>
      have h02 : posOnly s s2 :=
        posOnly_trans (expectT_ok_posOnly heq1) (expectT_ok_posOnly heq2)
      have hc2 : s2.idCounter = s.idCounter := h02.2.2.2
      simp only [generateId] at h
      split at h
      · exact absurd h (by simp)
      · next stt s4 heq3 =>
        simp only [Except.ok.injEq, Prod.mk.injEq] at h
        obtain ⟨hid, hs'⟩ := h
        subst hs'
        subst hid
        have hA : posOnly ({ s2 with idCounter := s2.idCounter + 1 } : PState)
            ((matchT s4 .SEMICOLON none).2) :=
          posOnly_trans (transLoop_posOnly _ _ _ _ _ _ _ heq3)
            (posOnly_matchT_snd s4 .SEMICOLON none)
        have hel : ((matchT s4 .SEMICOLON none).2).elements = s2.elements := hA.2.1
        have hcnt : ((matchT s4 .SEMICOLON none).2).idCounter = s2.idCounter + 1 :=
          hA.2.2.2
        refine leaf_insert s _ _ _ parent hWF (hel.trans h02.2.1) ?_ ?_ ?_ ?_ ?_
        · rw [hcnt, hc2]
        · omega
        · rfl
        · simp [listsInv]
        · rfl

theorem parseBind_spec {parent : Nat} {fuel : Nat} {s : PState} {id : Nat}
    {s' : PState} (hWF : WFs s) (h : parseBind parent fuel s = .ok (id, s')) :
    WFs s' ∧ Extends s s' ∧ childOk s'.elements parent id := by
  simp only [parseBind] at h
  split at h
  · exact absurd h (by simp)
  · next t1 s1 heq1 =>
    split at h
    · exact absurd h (by simp)
    · next source s2 heq2 =>
      split at h
      · exact absurd h (by simp)
      · next t2 s3 heq3 =>
        split at h
        · exact absurd h (by simp)
        · next target s4 heq4 =>
          simp only [generateId] at h
          simp only [Except.ok.injEq, Prod.mk.injEq] at h
          obtain ⟨hid, hs'⟩ := h
          subst hs'
          subst hid
          have h05 : posOnly s ((matchT s4 .SEMICOLON none).2) :=
            posOnly_trans (expectT_ok_posOnly heq1)
              (posOnly_trans (parseQualifiedName_posOnly heq2)
                (posOnly_trans (expectT_ok_posOnly heq3)
                  (posOnly_trans (parseQualifiedName_posOnly heq4)
                    (posOnly_matchT_snd s4 .SEMICOLON none))))
          have hcv : ((matchT s4 .SEMICOLON none).2).idCounter = s.idCounter :=
            h05.2.2.2
          refine leaf_insert s _ _ _ parent hWF ?_ ?_ ?_ ?_ ?_ ?_
          · exact h05.2.1
          · show ((matchT s4 .SEMICOLON none).2).idCounter + 1 = s.idCounter + 1
            omega
          · show ((matchT s4 .SEMICOLON none).2).idCounter + 1 = s.idCounter + 1
            omega
          · rfl
          · simp [listsInv]
          · rfl

theorem parseConnection_some_spec {parent : Nat} {fuel : Nat} {s : PState}
    {id : Nat} {s' : PState} (hWF : WFs s)
    (h : parseConnection parent fuel s = .ok (some id, s')) :
    WFs s' ∧ Extends s s' ∧ childOk s'.elements parent id := by
  simp only [parseConnection] at h
  split at h
  · exact absurd h (by simp)
  · next t1 s1 heq1 =>
    split at h
    · next s2 heq2 =>
      split at h
      · exact absurd h (by simp)
      · simp at h
    · next s2 heq2 =>
      split at h
      · exact absurd h (by simp)
      · next t2 s3 heq3 =>
        split at h
        · exact absurd h (by simp)
        · next source s4 heq4 =>
          split at h
          · exact absurd h (by simp)
          · next t3 s5 heq5 =>
            split at h
            · exact absurd h (by simp)
            · next target s6 heq6 =>
              split at h
              · exact absurd h (by simp)
              · next t4 s7 heq7 =>
                simp only [generateId] at h
                simp only [Except.ok.injEq, Prod.mk.injEq, Option.some.injEq] at h
                obtain ⟨hid, hs'⟩ := h
                subst hs'
                subst hid
                have h08 : posOnly s ((matchT s7 .SEMICOLON none).2) :=
                  posOnly_trans (expectT_ok_posOnly heq1)
                    (posOnly_trans (matchT_posOnly heq2)
                      (posOnly_trans (expectT_ok_posOnly heq3)
                        (posOnly_trans (parseQualifiedName_posOnly heq4)
                          (posOnly_trans (expectT_ok_posOnly heq5)
                            (posOnly_trans (parseQualifiedName_posOnly heq6)
                              (posOnly_trans (expectT_ok_posOnly heq7)
                                (posOnly_matchT_snd s7 .SEMICOLON none)))))))
                have hcv : ((matchT s7 .SEMICOLON none).2).idCounter = s.idCounter :=
                  h08.2.2.2
                refine leaf_insert s _ _ _ parent hWF ?_ ?_ ?_ ?_ ?_ ?_
                · exact h08.2.1
                · show ((matchT s7 .SEMICOLON none).2).idCounter + 1 = s.idCounter + 1
                  omega
                · show ((matchT s7 .SEMICOLON none).2).idCounter + 1 = s.idCounter + 1
                  omega
                · rfl
                · simp [listsInv]
                · rfl

theorem parseConnection_none_spec {parent : Nat} {fuel : Nat} {s : PState}
    {s' : PState} (hWF : WFs s)
    (h : parseConnection parent fuel s = .ok (none, s')) :
    WFs s' ∧ Extends s s' := by
  simp only [parseConnection] at h
  split at h
  · exact absurd h (by simp)
  · next t1 s1 heq1 =>
    split at h
    · next s2 heq2 =>
      split at h
      · exact absurd h (by simp)
      · next u s3 heq3 =>
        simp only [Except.ok.injEq, Prod.mk.injEq, true_and] at h
        subst h
        have h04 : posOnly s ((matchT s3 .SEMICOLON none).2) :=
          posOnly_trans (expectT_ok_posOnly heq1)
            (posOnly_trans (matchT_posOnly heq2)
              (posOnly_trans (ifaceSkip_posOnly _ _ _ heq3)
                (posOnly_matchT_snd s3 .SEMICOLON none)))
        exact ⟨WFs_of_posOnly h04 hWF, Extends_of_posOnly h04⟩
    · next s2 heq2 =>
      split at h
      · exact absurd h (by simp)
      · split at h
        · exact absurd h (by simp)
        · split at h
          · exact absurd h (by simp)
          · split at h
            · exact absurd h (by simp)
            · split at h
              · exact absurd h (by simp)
              · simp only [generateId] at h
                simp at h

theorem mem_mapSet {es : List (Nat × Element)} {k : Nat} {v : Element}
    {p : Nat × Element} (h : p ∈ mapSet es k v) : p = (k, v) ∨ p ∈ es := by
  induction es with
  | nil => simp [mapSet] at h; simp [h]
  | cons q rest ih =>
    obtain ⟨k', v'⟩ := q
    simp only [mapSet] at h
    split at h
    · rcases List.mem_cons.1 h with hh | hh
      · exact Or.inl hh
      · exact Or.inr (List.mem_cons_of_mem _ hh)
    · rcases List.mem_cons.1 h with hh | hh
      · exact Or.inr (by simp [hh])
      · rcases ih hh with hh' | hh'
        · exact Or.inl hh'
        · exact Or.inr (List.mem_cons_of_mem _ hh')

theorem childOk_after_set {es : List (Nat × Element)} {pid : Nat}
    (pe pe' : Element) (hg : mapGet es pid = some pe)
    (hpp : pe'.parent = pe.parent) {q c : Nat} (h : childOk es q c) :
    childOk (mapSet es pid pe') q c := by
  obtain ⟨e, he, hp⟩ := h
  by_cases hc : c = pid
  · subst hc
    rw [he] at hg
    injection hg with hg
    refine ⟨pe', mapGet_set_self _ _ _, ?_⟩
    rw [hpp, ← hg, hp]
  · exact ⟨e, by rw [mapGet_set_ne _ _ hc]; exact he, hp⟩

/-- `parent.children.push(elemId)` preserves well-formedness as long as
the pushed id resolves to an element whose parent is `pid`. -/
theorem addChild_WFs {s : PState} {pid elemId : Nat} (hWF : WFs s)
    (hch : childOk s.elements pid elemId) :
    WFs (addChild s pid elemId) ∧ (addChild s pid elemId).idCounter = s.idCounter := by
  obtain ⟨hb, hpi, hei⟩ := hWF
  unfold addChild
  split
  · next pe hg =>
    have hmem : (pid, pe) ∈ s.elements := mapGet_eq_some_mem hg
    constructor
    · refine ⟨?_, ?_, ?_⟩
      · intro p hp
        rcases mem_mapSet hp with hh | hh
        · subst hh
          exact hb (pid, pe) hmem
        · exact hb p hh
      · intro p hp c hc
        rcases mem_mapSet hp with hh | hh
        · subst hh
          simp only at hc
          rcases List.mem_append.1 hc with hcc | hcc
          · refine childOk_after_set pe _ hg ?_ (hpi (pid, pe) hmem c hcc)
            rfl
          · simp only [List.mem_singleton] at hcc
            subst hcc
            refine childOk_after_set pe _ hg ?_ hch
            rfl
        · refine childOk_after_set pe _ hg ?_ (hpi p hh c hc)
          rfl
      · intro p hp
        rcases mem_mapSet hp with hh | hh
        · subst hh
          have hl := hei (pid, pe) hmem
          unfold listsInv at hl ⊢
          exact ⟨hl.1.trans (List.sublist_append_left _ _),
            hl.2.1.trans (List.sublist_append_left _ _),
            hl.2.2.1.trans (List.sublist_append_left _ _),
            hl.2.2.2.trans (List.sublist_append_left _ _)⟩
        · exact hei p hh
    · rfl
  · exact ⟨⟨hb, hpi, hei⟩, rfl⟩

theorem WFs_transport {s s' : PState} (hWF : WFs s)
    (hel : s'.elements = s.elements) (hcnt : s.idCounter ≤ s'.idCounter) :
    WFs s' :=
  ⟨by rw [hel]; exact keysLe_mono hWF.1 hcnt, by rw [hel]; exact hWF.2.1,
   by rw [hel]; exact hWF.2.2⟩

theorem listsInv_addChildOnly {r : Element} (x : Nat) (hli : listsInv r) :
    listsInv { r with children := r.children ++ [x] } := by
  unfold listsInv at hli ⊢
  exact ⟨hli.1.trans (List.sublist_append_left _ _),
    hli.2.1.trans (List.sublist_append_left _ _),
    hli.2.2.1.trans (List.sublist_append_left _ _),
    hli.2.2.2.trans (List.sublist_append_left _ _)⟩

theorem stateDefBodyLoop_spec : ∀ fuel pid r s r' s',
    WFs s → (∀ c ∈ r.children, childOk s.elements pid c) → listsInv r →
    stateDefBodyLoop fuel pid r s = .ok (r', s') →
    WFs s' ∧ Extends s s' ∧ (∀ c ∈ r'.children, childOk s'.elements pid c) ∧
      listsInv r' ∧ r'.parent = r.parent := by
  intro fuel
  induction fuel with
  | zero => intro pid r s r' s' _ _ _ h; simp [stateDefBodyLoop] at h
  | succ fuel ih =>
    intro pid r s r' s' hWF hrc hli h
    simp only [stateDefBodyLoop] at h
    split at h
    · simp only [Except.ok.injEq, Prod.mk.injEq] at h
      obtain ⟨hr, hs⟩ := h
      subst hr; subst hs
      exact ⟨hWF, Extends.rfl s, hrc, hli, rfl⟩
    · split at h
      · -- state usage
        split at h
        · exact absurd h (by simp)
        · next stateId s1 heq =>
          obtain ⟨hw1, hx1, hc1⟩ := parseState_spec hWF heq
          obtain ⟨hw', hx', hrc', hli', hpp'⟩ := ih _ _ _ _ _ hw1
            (by
              intro c hc
              simp only [List.mem_append, List.mem_singleton] at hc
              rcases hc with hc | hc
              · exact hx1.childOk (hrc c hc)
              · subst hc; exact hc1)
            (by
              unfold listsInv at hli ⊢
              exact ⟨hli.1.trans (List.sublist_append_left _ _),
                hli.2.1.trans (List.sublist_append_left _ _),
                hli.2.2.1.append (List.Sublist.refl _),
                hli.2.2.2.trans (List.sublist_append_left _ _)⟩) h
          exact ⟨hw', Extends.trans hx1 hx', hrc', hli', hpp'⟩
      · split at h
        · -- transition
          split at h
          · exact absurd h (by simp)
          · next transId s1 heq =>
            obtain ⟨hw1, hx1, hc1⟩ := parseTransition_spec hWF heq
            obtain ⟨hw', hx', hrc', hli', hpp'⟩ := ih _ _ _ _ _ hw1
              (by
                intro c hc
                simp only [List.mem_append, List.mem_singleton] at hc
                rcases hc with hc | hc
                · exact hx1.childOk (hrc c hc)
                · subst hc; exact hc1)
              (by
                unfold listsInv at hli ⊢
                exact ⟨hli.1.trans (List.sublist_append_left _ _),
                  hli.2.1.trans (List.sublist_append_left _ _),
                  hli.2.2.1.trans (List.sublist_append_left _ _),
                  hli.2.2.2.append (List.Sublist.refl _)⟩) h
            exact ⟨hw', Extends.trans hx1 hx', hrc', hli', hpp'⟩
        · split at h
          · -- entry; then InitialState;
            split at h
            · next s3 heq =>
              split at h
              · exact absurd h (by simp)
              · next t s4 heq2 =>
                have ha : posOnly s ((advanceT s).2) := ⟨rfl, rfl, rfl, rfl⟩
                have hb2 : posOnly s ((matchT ((advanceT s).2) .SEMICOLON none).2) :=
                  posOnly_trans ha (posOnly_matchT_snd ((advanceT s).2) .SEMICOLON none)
                have hpo5 : posOnly s ((matchT s4 .SEMICOLON none).2) :=
                  posOnly_trans hb2
                    (posOnly_trans (matchT_posOnly heq)
                      (posOnly_trans (expectT_ok_posOnly heq2)
                        (posOnly_matchT_snd s4 .SEMICOLON none)))
                obtain ⟨hw', hx', hrc', hli', hpp'⟩ := ih _ _ _ _ _
                  (WFs_of_posOnly hpo5 hWF)
                  (by
                    intro c hc
                    exact (Extends_of_posOnly hpo5).childOk (hrc c hc))
                  hli h
                exact ⟨hw', Extends.trans (Extends_of_posOnly hpo5) hx', hrc',
                  hli', hpp'⟩
            · next s3 heq =>
              have ha : posOnly s ((advanceT s).2) := ⟨rfl, rfl, rfl, rfl⟩
              have hb2 : posOnly s ((matchT ((advanceT s).2) .SEMICOLON none).2) :=
                posOnly_trans ha (posOnly_matchT_snd ((advanceT s).2) .SEMICOLON none)
              have hpo : posOnly s s3 :=
                posOnly_trans hb2 (matchT_posOnly heq)
              obtain ⟨hw', hx', hrc', hli', hpp'⟩ := ih _ _ _ _ _
                (WFs_of_posOnly hpo hWF)
                (by
                  intro c hc
                  exact (Extends_of_posOnly hpo).childOk (hrc c hc))
                hli h
              exact ⟨hw', Extends.trans (Extends_of_posOnly hpo) hx', hrc',
                hli', hpp'⟩
          · -- unknown token skipped
            have hpo : posOnly s ((advanceT s).2) := ⟨rfl, rfl, rfl, rfl⟩
            obtain ⟨hw', hx', hrc', hli', hpp'⟩ := ih _ _ _ _ _
              (WFs_of_posOnly hpo hWF)
              (by
                intro c hc
                exact (Extends_of_posOnly hpo).childOk (hrc c hc))
              hli h
            exact ⟨hw', Extends.trans (Extends_of_posOnly hpo) hx', hrc',
              hli', hpp'⟩

theorem parseStateDef_spec {parent : Nat} {fuel : Nat} {s : PState} {id : Nat}
    {s' : PState} (hWF : WFs s) (h : parseStateDef parent fuel s = .ok (id, s')) :
    WFs s' ∧ Extends s s' ∧ childOk s'.elements parent id := by
  simp only [parseStateDef] at h
  split at h
  · exact absurd h (by simp)
  · next t1 s1 heq1 =>
    split at h
    · exact absurd h (by simp)
    · next t2 s2 heq2 =>
      split at h
      · exact absurd h (by simp)
      · next nameTok s3 heq3 =>
        have h03 : posOnly s s3 :=
          posOnly_trans (expectT_ok_posOnly heq1)
            (posOnly_trans (expectT_ok_posOnly heq2) (expectT_ok_posOnly heq3))
        have hc3 : s3.idCounter = s.idCounter := h03.2.2.2
        simp only [generateId] at h
        split at h
        · next s5 heq4 =>
          split at h
          · exact absurd h (by simp)
          · next r s6 heq5 =>
            split at h
            · exact absurd h (by simp)
            · next t4 s7 heq6 =>
              simp only [Except.ok.injEq, Prod.mk.injEq] at h
              obtain ⟨hid, hs'⟩ := h
              subst hs'
              subst hid
              have hpo45 : posOnly ({ s3 with idCounter := s3.idCounter + 1 } : PState) s5 :=
                matchT_posOnly heq4
              have he5 : s5.elements = s.elements := hpo45.2.1.trans h03.2.1
              have hc5 : s5.idCounter = s.idCounter + 1 := by
                have h1 : s5.idCounter = s3.idCounter + 1 := hpo45.2.2.2
                rw [h1, hc3]
              obtain ⟨hw6, hx6, hrc6, hli6, hpp6⟩ :=
                stateDefBodyLoop_spec fuel (s3.idCounter + 1) _ s5 r s6
                  (WFs_transport hWF he5 (by omega))
                  (by intro c hc; simp at hc) (by simp [listsInv]) heq5
              obtain ⟨hxc, nn, hx6el, hx6k⟩ := hx6
              have hpo67 := expectT_ok_posOnly heq6
              have he7 : s7.elements = s6.elements := hpo67.2.1
              have hc7 : s7.idCounter = s6.idCounter := hpo67.2.2.2
              obtain ⟨hw, hx, hg, -⟩ := setElem_spec s s7 s.idCounter
                (s3.idCounter + 1) r nn rfl (by rw [hc3]) hWF.1
                (by rw [he7, hx6el, he5])
                (by intro p hp; have := hx6k p hp; omega)
                (by rw [he7, hc7]; exact hw6.1)
                (by rw [he7]; exact hw6.2.1)
                (by rw [he7]; exact hw6.2.2)
                (by omega)
                (by intro c hc; rw [he7]; exact hrc6 c hc)
                hli6
              exact ⟨hw, hx, ⟨r, hg, by rw [hpp6]⟩⟩
        · next s5 heq4 =>
          simp only [Except.ok.injEq, Prod.mk.injEq] at h
          obtain ⟨hid, hs'⟩ := h
          subst hs'
          subst hid
          have hA : posOnly ({ s3 with idCounter := s3.idCounter + 1 } : PState) s5 :=
            matchT_posOnly heq4
          refine leaf_insert s _ _ _ parent hWF (hA.2.1.trans h03.2.1) ?_ ?_ ?_ ?_ ?_
          · rw [hA.2.2.2, hc3]
          · omega
          · rfl
          · simp [listsInv]
          · rfl

theorem partDefBodyLoop_spec : ∀ fuel pid r s r' s',
    WFs s → (∀ c ∈ r.children, childOk s.elements pid c) → listsInv r →
    partDefBodyLoop fuel pid r s = .ok (r', s') →
    WFs s' ∧ Extends s s' ∧ (∀ c ∈ r'.children, childOk s'.elements pid c) ∧
      listsInv r' ∧ r'.parent = r.parent := by
  intro fuel
  induction fuel with
  | zero => intro pid r s r' s' _ _ _ h; simp [partDefBodyLoop] at h
  | succ fuel ih =>
    intro pid r s r' s' hWF hrc hli h
    simp only [partDefBodyLoop] at h
    split at h
    · simp only [Except.ok.injEq, Prod.mk.injEq] at h
      obtain ⟨hr, hs⟩ := h
      subst hr; subst hs
      exact ⟨hWF, Extends.rfl s, hrc, hli, rfl⟩
    · split at h
      · -- port usage
        split at h
        · exact absurd h (by simp)
        · next portId s1 heq =>
          obtain ⟨hw1, hx1, hc1⟩ := parsePort_spec hWF heq
          obtain ⟨hw', hx', hrc', hli', hpp'⟩ := ih _ _ _ _ _ hw1
            (by
              intro c hc
              simp only [List.mem_append, List.mem_singleton] at hc
              rcases hc with hc | hc
              · exact hx1.childOk (hrc c hc)
              · subst hc; exact hc1)
            (by
              unfold listsInv at hli ⊢
              exact ⟨hli.1.append (List.Sublist.refl _),
                hli.2.1.trans (List.sublist_append_left _ _),
                hli.2.2.1.trans (List.sublist_append_left _ _),
                hli.2.2.2.trans (List.sublist_append_left _ _)⟩) h
          exact ⟨hw', Extends.trans hx1 hx', hrc', hli', hpp'⟩
      · split at h
        · -- part usage
          split at h
          · exact absurd h (by simp)
          · next childPartId s1 heq =>
            obtain ⟨hw1, hx1, hc1⟩ := parsePart_spec hWF heq
            obtain ⟨hw', hx', hrc', hli', hpp'⟩ := ih _ _ _ _ _ hw1
              (by
                intro c hc
                simp only [List.mem_append, List.mem_singleton] at hc
                rcases hc with hc | hc
                · exact hx1.childOk (hrc c hc)
                · subst hc; exact hc1)
              (by
                unfold listsInv at hli ⊢
                exact ⟨hli.1.trans (List.sublist_append_left _ _),
                  hli.2.1.append (List.Sublist.refl _),
                  hli.2.2.1.trans (List.sublist_append_left _ _),
                  hli.2.2.2.trans (List.sublist_append_left _ _)⟩) h
            exact ⟨hw', Extends.trans hx1 hx', hrc', hli', hpp'⟩
        · split at h
          · -- nested state-machine definition
            split at h
            · exact absurd h (by simp)
            · next stateDefId s1 heq =>
              obtain ⟨hw1, hx1, hc1⟩ := parseStateDef_spec hWF heq
              obtain ⟨hw', hx', hrc', hli', hpp'⟩ := ih _ _ _ _ _ hw1
                (by
                  intro c hc
                  simp only [List.mem_append, List.mem_singleton] at hc
                  rcases hc with hc | hc
                  · exact hx1.childOk (hrc c hc)
                  · subst hc; exact hc1)
                (listsInv_addChildOnly _ hli) h
              exact ⟨hw', Extends.trans hx1 hx', hrc', hli', hpp'⟩
          · split at h
            · -- interface statement
              split at h
              · exact absurd h (by simp)
              · next connId s1 heq =>
                obtain ⟨hw1, hx1, hc1⟩ := parseConnection_some_spec hWF heq
                obtain ⟨hw', hx', hrc', hli', hpp'⟩ := ih _ _ _ _ _ hw1
                  (by
                    intro c hc
                    simp only [List.mem_append, List.mem_singleton] at hc
                    rcases hc with hc | hc
                    · exact hx1.childOk (hrc c hc)
                    · subst hc; exact hc1)
                  (listsInv_addChildOnly _ hli) h
                exact ⟨hw', Extends.trans hx1 hx', hrc', hli', hpp'⟩
              · next s1 heq =>
                obtain ⟨hw1, hx1⟩ := parseConnection_none_spec hWF heq
                obtain ⟨hw', hx', hrc', hli', hpp'⟩ := ih _ _ _ _ _ hw1
                  (by
                    intro c hc
                    exact hx1.childOk (hrc c hc))
                  hli h
                exact ⟨hw', Extends.trans hx1 hx', hrc', hli', hpp'⟩
            · split at h
              · -- bind statement
                split at h
                · exact absurd h (by simp)
                · next bindId s1 heq =>
                  obtain ⟨hw1, hx1, hc1⟩ := parseBind_spec hWF heq
                  obtain ⟨hw', hx', hrc', hli', hpp'⟩ := ih _ _ _ _ _ hw1
                    (by
                      intro c hc
                      simp only [List.mem_append, List.mem_singleton] at hc
                      rcases hc with hc | hc
                      · exact hx1.childOk (hrc c hc)
                      · subst hc; exact hc1)
                    (listsInv_addChildOnly _ hli) h
                  exact ⟨hw', Extends.trans hx1 hx', hrc', hli', hpp'⟩
              · -- unknown token skipped
                have hpo : posOnly s ((advanceT s).2) := ⟨rfl, rfl, rfl, rfl⟩
                obtain ⟨hw', hx', hrc', hli', hpp'⟩ := ih _ _ _ _ _
                  (WFs_of_posOnly hpo hWF)
                  (by
                    intro c hc
                    exact (Extends_of_posOnly hpo).childOk (hrc c hc))
                  hli h
                exact ⟨hw', Extends.trans (Extends_of_posOnly hpo) hx', hrc',
                  hli', hpp'⟩

theorem parsePartDef_spec {parent : Nat} {fuel : Nat} {s : PState} {id : Nat}
    {s' : PState} (hWF : WFs s) (h : parsePartDef parent fuel s = .ok (id, s')) :
    WFs s' ∧ Extends s s' ∧ childOk s'.elements parent id := by
  simp only [parsePartDef] at h
  split at h
  · exact absurd h (by simp)
  · next t1 s1 heq1 =>
    split at h
    · exact absurd h (by simp)
    · next t2 s2 heq2 =>
      split at h
      · exact absurd h (by simp)
      · next nameTok s3 heq3 =>
        have h03 : posOnly s s3 :=
          posOnly_trans (expectT_ok_posOnly heq1)
            (posOnly_trans (expectT_ok_posOnly heq2) (expectT_ok_posOnly heq3))
        have hc3 : s3.idCounter = s.idCounter := h03.2.2.2
        simp only [generateId] at h
        split at h
        · next s5 heq4 =>
          split at h
          · exact absurd h (by simp)
          · next r s6 heq5 =>
            split at h
            · exact absurd h (by simp)
            · next t4 s7 heq6 =>
              simp only [Except.ok.injEq, Prod.mk.injEq] at h
              obtain ⟨hid, hs'⟩ := h
              subst hs'
              subst hid
              have hpo45 : posOnly ({ s3 with idCounter := s3.idCounter + 1 } : PState) s5 :=
                matchT_posOnly heq4
              have he5 : s5.elements = s.elements := hpo45.2.1.trans h03.2.1
              have hc5 : s5.idCounter = s.idCounter + 1 := by
                have h1 : s5.idCounter = s3.idCounter + 1 := hpo45.2.2.2
                rw [h1, hc3]
              obtain ⟨hw6, hx6, hrc6, hli6, hpp6⟩ :=
                partDefBodyLoop_spec fuel (s3.idCounter + 1) _ s5 r s6
                  (WFs_transport hWF he5 (by omega))
                  (by intro c hc; simp at hc) (by simp [listsInv]) heq5
              obtain ⟨hxc, nn, hx6el, hx6k⟩ := hx6
              have hpo67 := expectT_ok_posOnly heq6
              have he7 : s7.elements = s6.elements := hpo67.2.1
              have hc7 : s7.idCounter = s6.idCounter := hpo67.2.2.2
              obtain ⟨hw, hx, hg, -⟩ := setElem_spec s s7 s.idCounter
                (s3.idCounter + 1) r nn rfl (by rw [hc3]) hWF.1
                (by rw [he7, hx6el, he5])
                (by intro p hp; have := hx6k p hp; omega)
                (by rw [he7, hc7]; exact hw6.1)
                (by rw [he7]; exact hw6.2.1)
                (by rw [he7]; exact hw6.2.2)
                (by omega)
                (by intro c hc; rw [he7]; exact hrc6 c hc)
                hli6
              exact ⟨hw, hx, ⟨r, hg, by rw [hpp6]⟩⟩
        · next s5 heq4 =>
          simp only [Except.ok.injEq, Prod.mk.injEq] at h
          obtain ⟨hid, hs'⟩ := h
          subst hs'
          subst hid
          have hA : posOnly ({ s3 with idCounter := s3.idCounter + 1 } : PState)
              ((matchT s5 .SEMICOLON none).2) :=
            posOnly_trans (matchT_posOnly heq4) (posOnly_matchT_snd s5 .SEMICOLON none)
          refine leaf_insert s _ _ _ parent hWF (hA.2.1.trans h03.2.1) ?_ ?_ ?_ ?_ ?_
          · rw [hA.2.2.2, hc3]
          · omega
          · rfl
          · simp [listsInv]
          · rfl

theorem packageBodyLoop_spec : ∀ fuel pid s s',
    WFs s → packageBodyLoop fuel pid s = .ok ((), s') → WFs s' := by
  intro fuel
  induction fuel with
  | zero => intro pid s s' _ h; simp [packageBodyLoop] at h
  | succ fuel ih =>
    intro pid s s' hWF h
    simp only [packageBodyLoop] at h
    split at h
    · simp only [Except.ok.injEq, Prod.mk.injEq, true_and] at h
      subst h
      exact hWF
    · split at h
      · split at h
        · exact absurd h (by simp)
        · next elemId s1 heq =>
          obtain ⟨hw1, -, hc1⟩ := parseItemDef_spec hWF heq
          exact ih _ _ _ (addChild_WFs hw1 hc1).1 h
      · split at h
        · split at h
          · exact absurd h (by simp)
          · next elemId s1 heq =>
            obtain ⟨hw1, -, hc1⟩ := parsePortDef_spec hWF heq
            exact ih _ _ _ (addChild_WFs hw1 hc1).1 h
        · split at h
          · split at h
            · exact absurd h (by simp)
            · next elemId s1 heq =>
              obtain ⟨hw1, -, hc1⟩ := parsePartDef_spec hWF heq
              exact ih _ _ _ (addChild_WFs hw1 hc1).1 h
          · split at h
            · split at h
              · exact absurd h (by simp)
              · next elemId s1 heq =>
                obtain ⟨hw1, -, hc1⟩ := parsePart_spec hWF heq
                exact ih _ _ _ (addChild_WFs hw1 hc1).1 h
            · split at h
              · split at h
                · exact absurd h (by simp)
                · next elemId s1 heq =>
                  obtain ⟨hw1, -, hc1⟩ := parseRequirementDef_spec hWF heq
                  exact ih _ _ _ (addChild_WFs hw1 hc1).1 h
              · split at h
                · split at h
                  · exact absurd h (by simp)
                  · next elemId s1 heq =>
                    obtain ⟨hw1, -, hc1⟩ := parseStateDef_spec hWF heq
                    exact ih _ _ _ (addChild_WFs hw1 hc1).1 h
                · split at h
                  · split at h
                    · exact absurd h (by simp)
                    · next elemId s1 heq =>
                      obtain ⟨hw1, -, hc1⟩ := parseConnection_some_spec hWF heq
                      exact ih _ _ _ (addChild_WFs hw1 hc1).1 h
                    · next s1 heq =>
                      obtain ⟨hw1, -⟩ := parseConnection_none_spec hWF heq
                      exact ih _ _ _ hw1 h
                  · split at h
                    · split at h
                      · exact absurd h (by simp)
                      · next elemId s1 heq =>
                        obtain ⟨hw1, -, hc1⟩ := parseBind_spec hWF heq
                        exact ih _ _ _ (addChild_WFs hw1 hc1).1 h
                    · have hpo : posOnly s ((advanceT s).2) := ⟨rfl, rfl, rfl, rfl⟩
                      exact ih _ _ _ (WFs_of_posOnly hpo hWF) h

theorem parsePackage_spec {parent : Option Nat} {fuel : Nat} {s : PState}
    {s' : PState} (hWF : WFs s) (h : parsePackage parent fuel s = .ok ((), s')) :
    WFs s' := by
  simp only [parsePackage] at h
  split at h
  · exact absurd h (by simp)
  · next t1 s1 heq1 =>
    split at h
    · exact absurd h (by simp)
    · next nameTok s2 heq2 =>
      have h02 : posOnly s s2 :=
        posOnly_trans (expectT_ok_posOnly heq1) (expectT_ok_posOnly heq2)
      have hc2 : s2.idCounter = s.idCounter := h02.2.2.2
      simp only [generateId] at h
      have hw4 : WFs (setElem ({ s2 with idCounter := s2.idCounter + 1 } : PState)
          (s2.idCounter + 1)
          { type := .package, name := nameTok.value, id := s2.idCounter + 1,
            parent := parent, children := [] }) :=
        (setElem_spec s ({ s2 with idCounter := s2.idCounter + 1 } : PState)
          s.idCounter (s2.idCounter + 1)
          { type := .package, name := nameTok.value, id := s2.idCounter + 1,
            parent := parent, children := [] } []
          rfl (by rw [hc2]) hWF.1
          (by simp [h02.2.1]) (by simp)
          (by
            show keysLe s2.elements (s2.idCounter + 1)
            rw [h02.2.1, hc2]
            exact keysLe_mono hWF.1 (by omega))
          (by show parentInv s2.elements; rw [h02.2.1]; exact hWF.2.1)
          (by show elemsInv s2.elements; rw [h02.2.1]; exact hWF.2.2)
          (by show s2.idCounter + 1 ≤ s2.idCounter + 1; omega)
          (by intro c hc; simp at hc)
          (by simp [listsInv])).1
      by_cases hpn : parent = none
      · simp only [if_pos hpn] at h
        split at h
        · exact absurd h (by simp)
        · next t3 s6 heq3 =>
          split at h
          · exact absurd h (by simp)
          · next u s7 heq4 =>
            split at h
            · exact absurd h (by simp)
            · next t4 s8 heq5 =>
              simp only [Except.ok.injEq, Prod.mk.injEq, true_and] at h
              subst h
              have hw5 := WFs_transport hw4 (Eq.refl _) (le_refl _)
              have hw6 := WFs_of_posOnly (expectT_ok_posOnly heq3) hw5
              have hw7 := packageBodyLoop_spec fuel _ _ _ hw6 heq4
              exact WFs_of_posOnly (expectT_ok_posOnly heq5) hw7
      · simp only [if_neg hpn] at h
        split at h
        · exact absurd h (by simp)
        · next t3 s6 heq3 =>
          split at h
          · exact absurd h (by simp)
          · next u s7 heq4 =>
            split at h
            · exact absurd h (by simp)
            · next t4 s8 heq5 =>
              simp only [Except.ok.injEq, Prod.mk.injEq, true_and] at h
              subst h
              have hw6 := WFs_of_posOnly (expectT_ok_posOnly heq3) hw4
              have hw7 := packageBodyLoop_spec fuel _ _ _ hw6 heq4
              exact WFs_of_posOnly (expectT_ok_posOnly heq5) hw7

/-- Every model a successful `parse` returns is well-formed. -/
theorem parse_WFs {fuel : Nat} {source : String} {m : Model}
    (h : parse fuel source = .ok m) :
    parentInv m.elements ∧ elemsInv m.elements := by
  simp only [parse] at h
  split at h
  · split at h
    · exact absurd h (by simp)
    · next u s1 heq =>
      have hw0 : WFs
          ⟨(tokenize source).filter (fun t => t.type != TokenType.COMMENT),
            0, [], none, 0⟩ := by
        refine ⟨?_, ?_, ?_⟩ <;> intro p hp <;> simp at hp
      have hw1 := parsePackage_spec hw0 heq
      simp only [Except.ok.injEq] at h
      subst h
      exact ⟨hw1.2.1, hw1.2.2⟩
  · simp only [Except.ok.injEq] at h
    subst h
    exact ⟨by intro p hp; simp at hp, by intro p hp; simp at hp⟩

/-! ### Non-termination of the entry-action body skip on unterminated input -/

/-- The skip loop at `parser.ts` line 436 exhausts any amount of fuel
when the remaining tokens contain no `}` token: it has no EOF check. -/
theorem skipActionBody_noRBrace : ∀ fuel (s : PState),
    s.tokens.all (fun t => t.type != TokenType.RBRACE) = true →
    skipActionBody fuel s = .error .noFuel := by
  intro fuel
  induction fuel with
  | zero => intro s _; rfl
  | succ fuel ih =>
    intro s hB
    have hc : checkT s .RBRACE none = false := by
      unfold checkT currentTok
      cases hg : s.tokens.get? s.pos with
      | none => simp [hg]
      | some t =>
        have ht : t ∈ s.tokens := List.get?_mem hg
        have := List.all_eq_true.1 hB t ht
        simp only [bne_iff_ne, ne_eq] at this
        simp [hg, this]
    simp only [skipActionBody, hc]
    simp only [Bool.false_eq_true, if_false]
    exact ih _ hB

theorem C1aux_stateLoop : ∀ fuel,
    stateLoop fuel none C1S10 = .error .noFuel := by
  intro fuel
  match fuel with
  | 0 => rfl
  | g + 1 =>
    have h1 : stateLoop (g + 1) none C1S10 =
        (match skipActionBody g C1S14 with
         | .error e => .error e
         | .ok (_, s5) =>
           match expectT s5 .RBRACE none with
           | .error e => .error e
           | .ok (_, s6) => stateLoop g (some "go") s6) := rfl
    rw [h1, skipActionBody_noRBrace g C1S14 (by rfl)]

theorem C1aux_parseState : ∀ fuel,
    parseState 2 fuel C1S7 = .error .noFuel := by
  intro fuel
  have h1 : parseState 2 fuel C1S7 =
      (match stateLoop fuel none C1S10 with
       | .error e => .error e
       | .ok (entryAction, s5) =>
         match expectT s5 .RBRACE none with
         | .error e => .error e
         | .ok (_, s6) =>
           .ok (3, setElem s6 3
             { type := .state, name := "A", id := 3, parent := some 2,
               children := [], entryAction := entryAction })) := rfl
  rw [h1, C1aux_stateLoop fuel]

theorem C1aux_stateDefBody : ∀ fuel,
    stateDefBodyLoop fuel 2 C1r0 C1S7 = .error .noFuel := by
  intro fuel
  match fuel with
  | 0 => rfl
  | g + 1 =>
    have h1 : stateDefBodyLoop (g + 1) 2 C1r0 C1S7 =
        (match parseState 2 g C1S7 with
         | .error e => .error e
         | .ok (stateId, s1) =>
           stateDefBodyLoop g 2
             { C1r0 with
               states := C1r0.states ++ [stateId]
               children := C1r0.children ++ [stateId] } s1) := rfl
    rw [h1, C1aux_parseState g]

theorem C1aux_parseStateDef : ∀ fuel,
    parseStateDef 1 fuel C1S3 = .error .noFuel := by
  intro fuel
  have h1 : parseStateDef 1 fuel C1S3 =
      (match stateDefBodyLoop fuel 2 C1r0 C1S7 with
       | .error e => .error e
       | .ok (r, s6) =>
         match expectT s6 .RBRACE none with
         | .error e => .error e
         | .ok (_, s7) => .ok (2, setElem s7 2 r)) := rfl
  rw [h1, C1aux_stateDefBody fuel]

theorem C1aux_packageBody : ∀ fuel,
    packageBodyLoop fuel 1 C1S3 = .error .noFuel := by
  intro fuel
  match fuel with
  | 0 => rfl
  | g + 1 =>
    have h1 : packageBodyLoop (g + 1) 1 C1S3 =
        (match parseStateDef 1 g C1S3 with
         | .error e => .error e
         | .ok (elemId, s1) => packageBodyLoop g 1 (addChild s1 1 elemId)) := rfl
    rw [h1, C1aux_parseStateDef g]

theorem C1aux_parsePackage : ∀ fuel,
    parsePackage none fuel ⟨badToks, 0, [], none, 0⟩ = .error .noFuel := by
  intro fuel
  have h1 : parsePackage none fuel ⟨badToks, 0, [], none, 0⟩ =
      (match packageBodyLoop fuel 1 C1S3 with
       | .error e => .error e
       | .ok (_, s7) =>
         match expectT s7 .RBRACE none with
         | .error e => .error e
         | .ok (_, s8) => .ok ((), s8)) := rfl
  rw [h1, C1aux_packageBody fuel]

/-! ### Lexer lemmas -/

/-- The scan loop's fuel is irrelevant as long as it exceeds the number
of remaining characters: every iteration consumes at least one character.
This justifies running the loop with `length + 1` fuel. -/
theorem tokenizeFuel_congr : ∀ f g cs line col, cs.length < f →
    cs.length < g → tokenizeFuel f cs line col = tokenizeFuel g cs line col := by
  intro f
  induction f with
  | zero => intro g cs l c hf _; exact absurd hf (Nat.not_lt_zero _)
  | succ f ih =>
    intro g cs l c hf hg
    match g with
    | 0 => exact absurd hg (Nat.not_lt_zero _)
    | g + 1 =>
      match cs with
      | [] => rfl
      | ch :: cs =>
        have hlen : cs.length < f := by
          simp only [List.length_cons] at hf
          omega
        have hlen' : cs.length < g := by
          simp only [List.length_cons] at hg
          omega
        have hdrop : ∀ n, (cs.drop n).length < f := by
          intro n
          simp only [List.length_drop]
          omega
        have hdrop' : ∀ n, (cs.drop n).length < g := by
          intro n
          simp only [List.length_drop]
          omega
        simp only [tokenizeFuel]
        split
        · split
          · exact ih _ _ _ _ hlen hlen'
          · exact ih _ _ _ _ hlen hlen'
        · split
          · rw [ih _ _ _ _ (hdrop _) (hdrop' _)]
          · split
            · rw [ih _ _ _ _ (hdrop _) (hdrop' _)]
            · split
              · rw [ih _ _ _ _ (hdrop _) (hdrop' _)]
              · split
                · rw [ih _ _ _ _ (hdrop _) (hdrop' _)]
                · split
                  · rw [ih _ _ _ _ (hdrop _) (hdrop' _)]
                  · split
                    · rw [ih _ _ _ _ hlen hlen']
                    · exact ih _ _ _ _ hlen hlen'

/-- The lexer's output always ends in the end-of-input token. -/
theorem tokenize_lastEOF (source : String) :
    ∃ t, (tokenize source).getLast? = some t ∧ t.type = .EOF := by
  refine ⟨(⟨.EOF, "", (tokenizeAux source.toList 1 1).2.1,
    (tokenizeAux source.toList 1 1).2.2⟩ : Token), ?_, rfl⟩
  show ((tokenizeAux source.toList 1 1).1 ++
    [(⟨.EOF, "", (tokenizeAux source.toList 1 1).2.1,
      (tokenizeAux source.toList 1 1).2.2⟩ : Token)]).getLast? = _
  rw [List.getLast?_concat]

/-- A character matched by no lexing rule is skipped: the scan continues
one position further (column advanced by one) with no token emitted. -/
theorem tokenizeAux_skip {c : Char} {cs : List Char} {l col : Nat}
    (h : noRuleMatches c cs) :
    tokenizeAux (c :: cs) l col = tokenizeAux cs l (col + 1) := by
  obtain ⟨h1, h2, h3, h4, h5, h6, h7, h8⟩ := h
  show tokenizeFuel ((c :: cs).length + 1) (c :: cs) l col = _
  simp only [List.length_cons]
  simp only [tokenizeFuel]
  rw [if_neg (by simp [h1]),
    if_neg (by simpa using h2),
    if_neg (by simpa using h3),
    if_neg (by simpa using h4),
    if_neg (by simp only [Bool.or_eq_true, Bool.and_eq_true,
      decide_eq_true_eq, h5]; simpa using h6),
    if_neg (by simp [h7]),
    h8]
  rfl

/-! ### Universal characterization of the transition clause scan -/

theorem get?_append_cons (pre l : List Token) (t : Token) :
    (pre ++ t :: l).get? pre.length = some t := by
  induction pre with
  | nil => rfl
  | cons p pre ih => simpa using ih

theorem get?_append_cons_succ (pre l : List Token) (t u : Token) :
    (pre ++ t :: u :: l).get? (pre.length + 1) = some u := by
  induction pre with
  | nil => rfl
  | cons p pre ih => simpa using ih

theorem clausesToks_cons (cl : TClause) (cls : List TClause) :
    clausesToks (cl :: cls) = clauseToks cl ++ clausesToks cls := by
  simp [clausesToks]

/-- The clause scan of `parseTransition` (`parser.ts` lines 460-470),
characterized for EVERY clause sequence — any order, any repetitions,
any identifier values, any surrounding tokens: starting at the clauses,
the loop consumes exactly the clause tokens, stops at the terminating
semicolon, never raises, and returns the left fold of the clause
overwrites over the incoming `(source, target, trigger)` accumulator. -/
theorem transLoop_scan : ∀ (cls : List TClause) (fuel : Nat) (a b : String)
    (c : Option String) (s : PState) (pre rest : List Token) (semi : Token),
    s.tokens = pre ++ (clausesToks cls ++ semi :: rest) →
    s.pos = pre.length →
    semi.type = .SEMICOLON →
    2 * cls.length < fuel →
    transLoop fuel a b c s =
      .ok (List.foldl applyClause (a, b, c) cls,
        { s with pos := s.pos + 2 * cls.length }) := by
  intro cls
  induction cls with
  | nil =>
    intro fuel a b c s pre rest semi htoks hpos hsemi hfuel
    match fuel with
    | 0 => simp at hfuel
    | fuel + 1 =>
      have hcur : currentTok s = semi := by
        unfold currentTok
        rw [htoks, hpos]
        simp only [clausesToks, List.map_nil, List.flatten_nil, List.nil_append,
          get?_append_cons, Option.getD_some]
      have hc1 : checkT s .SEMICOLON none = true := by
        simp [checkT, hcur, hsemi]
      simp only [transLoop, hc1, Bool.true_or, if_true]
      rfl
  | cons cl cls ih =>
    intro fuel a b c s pre rest semi htoks hpos hsemi hfuel
    match fuel with
    | 0 => exact absurd hfuel (by omega)
    | fuel + 1 =>
      have hlen2 : 2 * cls.length < fuel := by
        simp only [List.length_cons] at hfuel
        omega
      cases cl with
      | first x =>
        have htoks' : s.tokens = pre ++ (⟨.KEYWORD, "first", 0, 0⟩ : Token) ::
            (⟨.IDENTIFIER, x, 0, 0⟩ : Token) ::
            (clausesToks cls ++ semi :: rest) := by
          rw [htoks, clausesToks_cons]
          simp [clauseToks]
        have hcur : currentTok s = ⟨.KEYWORD, "first", 0, 0⟩ := by
          unfold currentTok
          rw [htoks', hpos, get?_append_cons]
          rfl
        have hnext : s.tokens.get? (s.pos + 1) =
            some (⟨.IDENTIFIER, x, 0, 0⟩ : Token) := by
          rw [htoks', hpos, get?_append_cons_succ]
        have hc1 : checkT s .SEMICOLON none = false := by simp [checkT, hcur]
        have hc2 : checkT s .RBRACE none = false := by simp [checkT, hcur]
        have hc3 : checkT s .EOF none = false := by simp [checkT, hcur]
        have hm1 : matchT s .KEYWORD (some "first") =
            (true, { s with pos := s.pos + 1 }) := by
          simp [matchT, checkT, hcur]
        have hex : expectT ({ s with pos := s.pos + 1 }) .IDENTIFIER none =
            .ok (⟨.IDENTIFIER, x, 0, 0⟩, { s with pos := s.pos + 1 + 1 }) := by
          simp only [List.get?_eq_getElem?] at hnext
          unfold expectT checkT currentTok advanceT
          simp [currentTok, hnext]
        simp only [transLoop, hc1, hc2, hc3, Bool.or_self, Bool.false_eq_true,
          if_false, hm1, hex]
        rw [ih fuel x b c _ (pre ++ clauseToks (.first x)) rest semi
          (by rw [htoks', clauseToks]; simp) (by simp [hpos, clauseToks])
          hsemi hlen2]
        have harith : s.pos + 1 + 1 + 2 * cls.length =
            s.pos + 2 * (cls.length + 1) := by omega
        simp only [List.foldl_cons, applyClause, List.length_cons, harith]
      | accepts x =>
        have htoks' : s.tokens = pre ++ (⟨.KEYWORD, "accept", 0, 0⟩ : Token) ::
            (⟨.IDENTIFIER, x, 0, 0⟩ : Token) ::
            (clausesToks cls ++ semi :: rest) := by
          rw [htoks, clausesToks_cons]
          simp [clauseToks]
        have hcur : currentTok s = ⟨.KEYWORD, "accept", 0, 0⟩ := by
          unfold currentTok
          rw [htoks', hpos, get?_append_cons]
          rfl
        have hnext : s.tokens.get? (s.pos + 1) =
            some (⟨.IDENTIFIER, x, 0, 0⟩ : Token) := by
          rw [htoks', hpos, get?_append_cons_succ]
        have hc1 : checkT s .SEMICOLON none = false := by simp [checkT, hcur]
        have hc2 : checkT s .RBRACE none = false := by simp [checkT, hcur]
        have hc3 : checkT s .EOF none = false := by simp [checkT, hcur]
        have hm1 : matchT s .KEYWORD (some "first") = (false, s) := by
          simp [matchT, checkT, hcur]
        have hm2 : matchT s .KEYWORD (some "accept") =
            (true, { s with pos := s.pos + 1 }) := by
          simp [matchT, checkT, hcur]
        have hex : expectT ({ s with pos := s.pos + 1 }) .IDENTIFIER none =
            .ok (⟨.IDENTIFIER, x, 0, 0⟩, { s with pos := s.pos + 1 + 1 }) := by
          simp only [List.get?_eq_getElem?] at hnext
          unfold expectT checkT currentTok advanceT
          simp [currentTok, hnext]
        simp only [transLoop, hc1, hc2, hc3, Bool.or_self, Bool.false_eq_true,
          if_false, hm1, hm2, hex]
        rw [ih fuel a b (some x) _ (pre ++ clauseToks (.accepts x)) rest semi
          (by rw [htoks', clauseToks]; simp) (by simp [hpos, clauseToks])
          hsemi hlen2]
        have harith : s.pos + 1 + 1 + 2 * cls.length =
            s.pos + 2 * (cls.length + 1) := by omega
        simp only [List.foldl_cons, applyClause, List.length_cons, harith]
      | thenTo x =>
        have htoks' : s.tokens = pre ++ (⟨.KEYWORD, "then", 0, 0⟩ : Token) ::
            (⟨.IDENTIFIER, x, 0, 0⟩ : Token) ::
            (clausesToks cls ++ semi :: rest) := by
          rw [htoks, clausesToks_cons]
          simp [clauseToks]
        have hcur : currentTok s = ⟨.KEYWORD, "then", 0, 0⟩ := by
          unfold currentTok
          rw [htoks', hpos, get?_append_cons]
          rfl
        have hnext : s.tokens.get? (s.pos + 1) =
            some (⟨.IDENTIFIER, x, 0, 0⟩ : Token) := by
          rw [htoks', hpos, get?_append_cons_succ]
        have hc1 : checkT s .SEMICOLON none = false := by simp [checkT, hcur]
        have hc2 : checkT s .RBRACE none = false := by simp [checkT, hcur]
        have hc3 : checkT s .EOF none = false := by simp [checkT, hcur]
        have hm1 : matchT s .KEYWORD (some "first") = (false, s) := by
          simp [matchT, checkT, hcur]
        have hm2 : matchT s .KEYWORD (some "accept") = (false, s) := by
          simp [matchT, checkT, hcur]
        have hm3 : matchT s .KEYWORD (some "then") =
            (true, { s with pos := s.pos + 1 }) := by
          simp [matchT, checkT, hcur]
        have hex : expectT ({ s with pos := s.pos + 1 }) .IDENTIFIER none =
            .ok (⟨.IDENTIFIER, x, 0, 0⟩, { s with pos := s.pos + 1 + 1 }) := by
          simp only [List.get?_eq_getElem?] at hnext
          unfold expectT checkT currentTok advanceT
          simp [currentTok, hnext]
        simp only [transLoop, hc1, hc2, hc3, Bool.or_self, Bool.false_eq_true,
          if_false, hm1, hm2, hm3, hex]
        rw [ih fuel a x c _ (pre ++ clauseToks (.thenTo x)) rest semi
          (by rw [htoks', clauseToks]; simp) (by simp [hpos, clauseToks])
          hsemi hlen2]
        have harith : s.pos + 1 + 1 + 2 * cls.length =
            s.pos + 2 * (cls.length + 1) := by omega
        simp only [List.foldl_cons, applyClause, List.length_cons, harith]

theorem foldl_apply_first_const : ∀ (l : List TClause)
    (acc : String × String × Option String),
    (∀ y, TClause.first y ∉ l) →
    (List.foldl applyClause acc l).1 = acc.1 := by
  intro l
  induction l with
  | nil => intro acc _; rfl
  | cons cl l ih =>
    intro acc hno
    rw [List.foldl_cons,
      ih _ (fun y hy => hno y (List.mem_cons_of_mem _ hy))]
    cases cl with
    | first y => exact absurd (List.mem_cons_self _ _) (hno y)
    | accepts y => obtain ⟨a, b, c⟩ := acc; rfl
    | thenTo y => obtain ⟨a, b, c⟩ := acc; rfl

theorem foldl_apply_accepts_const : ∀ (l : List TClause)
    (acc : String × String × Option String),
    (∀ y, TClause.accepts y ∉ l) →
    (List.foldl applyClause acc l).2.2 = acc.2.2 := by
  intro l
  induction l with
  | nil => intro acc _; rfl
  | cons cl l ih =>
    intro acc hno
    rw [List.foldl_cons,
      ih _ (fun y hy => hno y (List.mem_cons_of_mem _ hy))]
    cases cl with
    | accepts y => exact absurd (List.mem_cons_self _ _) (hno y)
    | first y => obtain ⟨a, b, c⟩ := acc; rfl
    | thenTo y => obtain ⟨a, b, c⟩ := acc; rfl

theorem foldl_apply_thenTo_const : ∀ (l : List TClause)
    (acc : String × String × Option String),
    (∀ y, TClause.thenTo y ∉ l) →
    (List.foldl applyClause acc l).2.1 = acc.2.1 := by
  intro l
  induction l with
  | nil => intro acc _; rfl
  | cons cl l ih =>
    intro acc hno
    rw [List.foldl_cons,
      ih _ (fun y hy => hno y (List.mem_cons_of_mem _ hy))]
    cases cl with
    | thenTo y => exact absurd (List.mem_cons_self _ _) (hno y)
    | first y => obtain ⟨a, b, c⟩ := acc; rfl
    | accepts y => obtain ⟨a, b, c⟩ := acc; rfl

/-- Last `first` clause wins: whatever precedes it, the fold's source is
the value of the last `first` clause. -/
theorem lastFirstWins (l1 l2 : List TClause) (x : String)
    (acc : String × String × Option String)
    (hno : ∀ y, TClause.first y ∉ l2) :
    (List.foldl applyClause acc (l1 ++ TClause.first x :: l2)).1 = x := by
  rw [List.foldl_append, List.foldl_cons, foldl_apply_first_const l2 _ hno]
  generalize List.foldl applyClause acc l1 = p
  obtain ⟨a, b, c⟩ := p
  rfl

/-- Last `accept` clause wins for the trigger. -/
theorem lastAcceptWins (l1 l2 : List TClause) (x : String)
    (acc : String × String × Option String)
    (hno : ∀ y, TClause.accepts y ∉ l2) :
    (List.foldl applyClause acc (l1 ++ TClause.accepts x :: l2)).2.2 = some x := by
  rw [List.foldl_append, List.foldl_cons, foldl_apply_accepts_const l2 _ hno]
  generalize List.foldl applyClause acc l1 = p
  obtain ⟨a, b, c⟩ := p
  rfl

/-- Last `then` clause wins for the target. -/
theorem lastThenWins (l1 l2 : List TClause) (x : String)
    (acc : String × String × Option String)
    (hno : ∀ y, TClause.thenTo y ∉ l2) :
    (List.foldl applyClause acc (l1 ++ TClause.thenTo x :: l2)).2.1 = x := by
  rw [List.foldl_append, List.foldl_cons, foldl_apply_thenTo_const l2 _ hno]
  generalize List.foldl applyClause acc l1 = p
  obtain ⟨a, b, c⟩ := p
  rfl

/-! ### Claim theorems -/

/-- C1: the spec says a `parse` call always terminates, returning a
complete Model or raising a parse error.  The code violates this: on
`badSource` (an `entry action` body whose brace is never closed) the skip
loop at `parser.ts` line 436 — the only loop in the parser without an
EOF check — advances past the end of the token stream forever.  In the
fueled embedding this shows as fuel exhaustion at every fuel, which is
exactly non-termination of the original loop. -/
theorem C1_parse_nonterminating_on_unclosed_action :
    ∀ fuel, parse fuel badSource = .error .noFuel := by
  intro fuel
  have h1 : parse fuel badSource =
      (match parsePackage none fuel ⟨badToks, 0, [], none, 0⟩ with
       | .error e => .error e
       | .ok (_, s1) =>
         .ok { elements := s1.elements, rootPackage := s1.rootPackage }) := rfl
  rw [h1, C1aux_parsePackage fuel]

/-- C2 counterexample: parsing exactly `part def { }` does NOT raise a
parse error — the source does not begin with the `package` keyword, so
`parse` (line 33) never enters any production and returns the empty
Model. -/
theorem C2_counterexample_toplevel_part_def :
    parse 100 "part def \x7b \x7d" = .ok ⟨[], none⟩ := rfl

/-- C2 (amended): when the malformed `part def { }` (missing its name)
occurs inside a package body, parse raises a parse error reporting that
an IDENTIFIER was expected (a `{` was found) at the line of the
offending token, and no Model is returned; at top level the same text
yields the empty Model instead, since parsing only starts at a leading
`package` keyword. -/
theorem C2_missing_name_error_in_package_body :
    parse 100 "package P \x7b\npart def \x7b \x7d \x7d" =
      .error (.expected .IDENTIFIER none .LBRACE "\x7b" 2) := rfl

/-- C3: for every source whose first non-comment token is not the
keyword `package` (including the empty string), `parse` succeeds and
returns a Model with an empty element map and no root package. -/
theorem C3_no_package_yields_empty_model :
    ∀ fuel source, startsWithPackage source = false →
      parse fuel source = .ok ⟨[], none⟩ := by
  intro fuel source h
  unfold startsWithPackage at h
  simp only [parse, h, Bool.false_eq_true, if_false]

theorem C3_witness :
    startsWithPackage "" = false ∧ parse 0 "" = .ok ⟨[], none⟩ :=
  ⟨rfl, C3_no_package_yields_empty_model 0 "" rfl⟩

/-- C4: in every Model returned by a successful parse, every id in any
element's `children` resolves through `getElement` to an element whose
`parent` is the containing element's id. -/
theorem C4_parent_consistency :
    ∀ fuel source m, parse fuel source = .ok m → ParentConsistent m := by
  intro fuel source m h p hp c hc
  exact (parse_WFs h).1 p hp c hc

theorem C4_witness :
    parse 100 demoSource = .ok demoModel ∧ ParentConsistent demoModel :=
  ⟨rfl, C4_parent_consistency 100 demoSource demoModel rfl⟩

/-- C5: in every parsed Model the `ports`/`parts` lists of a part
definition and the `states`/`transitions` lists of a state-machine
definition are order-preserving subsets (sublists) of that element's
`children`; in particular, for the part definition `P` of `c5source`
(ports `p1, p2` then parts `a, b`), `getChildren` returns exactly
`[p1, p2, a, b]` in declaration order with `ports == [p1, p2]` and
`parts == [a, b]`. -/
theorem C5_convenience_lists :
    (∀ fuel source m, parse fuel source = .ok m → ListsConsistent m) ∧
    (getChildren c5model 2).map (fun e => e.name) = ["p1", "p2", "a", "b"] ∧
    (getElement c5model 2).map (fun e => e.ports) = some [3, 4] ∧
    (getElement c5model 2).map (fun e => e.parts) = some [5, 6] ∧
    (getElement c5model 2).map (fun e => e.children) = some [3, 4, 5, 6] := by
  refine ⟨?_, rfl, rfl, rfl, rfl⟩
  intro fuel source m h p hp
  have hli := (parse_WFs h).2 p hp
  exact ⟨fun _ => ⟨hli.1, hli.2.1⟩, fun _ => ⟨hli.2.2.1, hli.2.2.2⟩⟩

theorem C5_witness :
    parse 100 c5source = .ok c5model ∧ ListsConsistent c5model :=
  ⟨rfl, C5_convenience_lists.1 100 c5source c5model rfl⟩

/-- C6: universal characterization of the transition clause scan.  For
EVERY clause sequence (any order of `first`/`accept`/`then`, any
repetitions, any identifier values) the loop scans tokens up to the
terminating semicolon, raises no error, and the stored
`(source, target, trigger)` is the left fold of the per-clause
overwrites; consequently, when a clause kind occurs several times,
the last occurrence determines the stored value (explicit corollaries
for each clause kind).  Also checked on the spec's end-to-end example
through `parse` (ids: package 1, state-machine 2, OPEN 3, CLOSED 4,
t1 5). -/
theorem C6_transition_clause_scan :
    (∀ (cls : List TClause) (fuel : Nat) (a b : String)
        (c : Option String) (s : PState) (pre rest : List Token) (semi : Token),
      s.tokens = pre ++ (clausesToks cls ++ semi :: rest) →
      s.pos = pre.length →
      semi.type = .SEMICOLON →
      2 * cls.length < fuel →
      transLoop fuel a b c s =
        .ok (List.foldl applyClause (a, b, c) cls,
          { s with pos := s.pos + 2 * cls.length })) ∧
    (∀ (l1 l2 : List TClause) (x : String)
        (acc : String × String × Option String),
      (∀ y, TClause.first y ∉ l2) →
      (List.foldl applyClause acc (l1 ++ TClause.first x :: l2)).1 = x) ∧
    (∀ (l1 l2 : List TClause) (x : String)
        (acc : String × String × Option String),
      (∀ y, TClause.accepts y ∉ l2) →
      (List.foldl applyClause acc (l1 ++ TClause.accepts x :: l2)).2.2 = some x) ∧
    (∀ (l1 l2 : List TClause) (x : String)
        (acc : String × String × Option String),
      (∀ y, TClause.thenTo y ∉ l2) →
      (List.foldl applyClause acc (l1 ++ TClause.thenTo x :: l2)).2.1 = x) ∧
    (parse 100 "package Pk \x7b state def SM \x7b state OPEN; state CLOSED; transition t1 first OPEN accept go then CLOSED; \x7d \x7d").map
        (fun m => (getElement m 5).map (fun e => (e.source, e.target, e.trigger))) =
      .ok (some ("OPEN", "CLOSED", some "go")) ∧
    (parse 100 "package Pk \x7b state def SM \x7b state OPEN; state CLOSED; transition t1 first OPEN accept go then CLOSED; \x7d \x7d").map
        (fun m => (getElement m 2).map (fun e => (e.states, e.transitions))) =
      .ok (some ([3, 4], [5])) :=
  ⟨transLoop_scan, lastFirstWins, lastAcceptWins, lastThenWins, rfl, rfl⟩

theorem C6_witness :
    2 * c6clauses.length < 20 ∧
    transLoop 20 "" "" none c6state =
      .ok (("B", "C", some "x"),
        { c6state with pos := c6state.pos + 2 * c6clauses.length }) :=
  ⟨by decide,
    C6_transition_clause_scan.1 c6clauses 20 "" "" none c6state [] []
      ⟨.SEMICOLON, ";", 0, 0⟩ rfl rfl rfl (by decide)⟩

/-- C7: `interface connect (a.b, c.d);` inside a package body produces a
connection element whose `source` is the verbatim string `a.b` and whose
`target` is `c.d` — dot-joined qualified names, unresolved. -/
theorem C7_connection_endpoints_verbatim :
    (parse 100 "package Pk \x7b interface connect (a.b, c.d); \x7d").map
        (fun m => (getElement m 2).map (fun e => (e.type, e.source, e.target))) =
      .ok (some (.connection, "a.b", "c.d")) := rfl

/-- C8: the `parse` method rewrites every instance field (tokens,
cursor, model, id counter) before parsing — lines 27-30 — so two parses
of the same text, on any two (even previously used) parser instances,
return the same Model as a fresh parse.  Equal Models are in particular
structurally identical: same element shapes, names and parent/child
relationships; the claim's allowance that ids may differ is not
exercised, ids coincide as well because the counter is reset per call. -/
theorem C8_reparse_structurally_identical :
    ∀ inst1 inst2 fuel source,
      parseOn inst1 fuel source = parseOn inst2 fuel source ∧
      parseOn inst1 fuel source = parse fuel source :=
  fun _ _ _ _ => ⟨rfl, rfl⟩

/-- C9: `tokenize` is a total function (it is defined by structural
recursion consuming at least one character per step) whose result is a
finite token list ending in the end-of-input token, and a character
matched by no lexing rule is skipped — the scan advances one position,
emits no token and raises nothing. -/
theorem C9_tokenize_total_last_eof_skip :
    (∀ source, ∃ t, (tokenize source).getLast? = some t ∧ t.type = .EOF) ∧
    (∀ c cs l col, noRuleMatches c cs →
      tokenizeAux (c :: cs) l col = tokenizeAux cs l (col + 1)) :=
  ⟨tokenize_lastEOF, fun _ _ _ _ h => tokenizeAux_skip h⟩

theorem C9_witness :
    (∃ t, (tokenize "#").getLast? = some t ∧ t.type = .EOF) ∧
    noRuleMatches '#' [] ∧
    tokenizeAux ['#'] 1 1 = tokenizeAux [] 1 2 :=
  ⟨C9_tokenize_total_last_eof_skip.1 "#", by unfold noRuleMatches; decide,
    C9_tokenize_total_last_eof_skip.2 '#' [] 1 1
      (by unfold noRuleMatches; decide)⟩

/-- C10: `getConnections` returns exactly the elements whose variant tag
is `connection` or `bind` — binds are included alongside interface
connections.  On the demonstration model it returns the connection and
the bind, in insertion order. -/
theorem C10_getConnections_connection_or_bind :
    (∀ m e, e ∈ getConnections m ↔
      e ∈ m.elements.map Prod.snd ∧ (e.type = .connection ∨ e.type = .bind)) ∧
    (getConnections demoModel).map (fun e => (e.type, e.name)) =
      [(.connection, "a.b->c.d"), (.bind, "x.y=z.w")] := by
  refine ⟨?_, rfl⟩
  intro m e
  simp [getConnections, List.mem_filter]

end SysMLV
